import Mathlib

/-!
Shallow embedding of the watchflowlocal standalone analysis pipeline.

The embedding follows the Python sources:
  * src/utils/github_url.py   (repository reference parsing)
  * src/services/standalone_analyzer.py  (rule loading, PR context building,
    batch evaluation coordination, result aggregation)
  * src/api/analyze.py        (request validation bounds)

External collaborators (the GitHub HTTP client, the YAML library, the rule
record validator GitHubRuleLoader._parse_rule and the rule evaluation engine)
are modelled as explicit environment parameters: each parameter carries the
observable outcome of the corresponding external call, with a thrown Python
exception represented as Except.error.  Values received from the network are
modelled as untyped JSON, mirroring the fact that the code manipulates raw
dictionaries from response.json().
-/

namespace Watchflow

/-! ### Untyped JSON values and Python truthiness -/

/-- A JSON value, as produced by response.json().  Python dict keys of the
payloads handled here are strings. -/
inductive Json where
  | null : Json
  | bool : Bool → Json
  | num : Int → Json
  | str : String → Json
  | arr : List Json → Json
  | obj : List (String × Json) → Json
deriving Repr

/-- Python truthiness of a JSON value (used for `if not repo_data`,
`if pr_number`, `(pr_data.get("user") or \x7b\x7d)`, ...). -/
def jsonTruthy : Json → Bool
  | .null => false
  | .bool b => b
  | .num n => n != 0
  | .str s => s ≠ ""
  | .arr xs => !xs.isEmpty
  | .obj kvs => !kvs.isEmpty

/-- dict.get(k) on a JSON object body; returns none when the key is absent. -/
def jsonLookup (k : String) : List (String × Json) → Option Json
  | [] => none
  | (k', v) :: rest => if k' = k then some v else jsonLookup k rest

/-- Truthiness of an optional string (Python: a present, non-empty string). -/
def strOptTruthy : Option String → Bool
  | none => false
  | some s => s ≠ ""

/-- Truthiness of an optional integer (Python: present and non-zero). -/
def natOptTruthy : Option Nat → Bool
  | none => false
  | some n => n ≠ 0

/-! ### Repository references (src/utils/github_url.py) -/

/-- Parsed GitHub repository information (dataclass GitHubRepoInfo). -/
structure GitHubRepoInfo where
  owner : String
  repo : String
  pr_number : Option Nat := none
  branch : Option String := none
deriving Repr, DecidableEq

/-- full_name property: "owner/repo". -/
def GitHubRepoInfo.full_name (ri : GitHubRepoInfo) : String :=
  ri.owner ++ "/" ++ ri.repo

namespace GitHubURLParser

/-- The 29 code points CPython treats as whitespace (Py_UNICODE_ISSPACE):
0x09-0x0d, 0x1c-0x20, next line, no-break space, Ogham space mark, the
en/em family 0x2000-0x200a, line and paragraph separators, narrow
no-break space, medium mathematical space and ideographic space. -/
def pySpaceChars : List Char :=
  ['\x09', '\x0a', '\x0b', '\x0c', '\x0d', '\x1c', '\x1d', '\x1e', '\x1f',
   '\x20', '\x85', '\xa0', '\u1680', '\u2000', '\u2001', '\u2002', '\u2003',
   '\u2004', '\u2005', '\u2006', '\u2007', '\u2008', '\u2009', '\u200a',
   '\u2028', '\u2029', '\u202f', '\u205f', '\u3000']

/-- Python str.strip() whitespace test. -/
def isPySpace (c : Char) : Bool := decide (c ∈ pySpaceChars)

/-- url.strip(): drop leading and trailing whitespace. -/
def pyStrip (l : List Char) : List Char :=
  ((l.dropWhile isPySpace).reverse.dropWhile isPySpace).reverse

/-- Characters other than the path separator, i.e. the class [^/]. -/
def noSlash (c : Char) : Bool := c ≠ '/'

/-- int() on a decimal digit string. -/
def digitsToNat (l : List Char) : Nat :=
  l.foldl (fun a c => 10 * a + (c.toNat - '0'.toNat)) 0

/-- Match a literal prefix and return the remainder, as the regex engine does
for a literal at the current position. -/
def dropPfx (pfx s : List Char) : Option (List Char) :=
  if pfx.isPrefixOf s then some (s.drop pfx.length) else none

/-- Greedy `C+` matching with backtracking: try the maximal run of characters
satisfying p, longest first, feeding the remainder to the continuation k.
Candidate i+1 is the length of the captured run. -/
def greedyCapture (p : Char → Bool) (s : List Char) (k : List Char → Option β) :
    Option (List Char × β) :=
  ((List.range (s.takeWhile p).length).reverse).findSome? fun i =>
    (k (s.drop (i + 1))).map fun b => (s.take (i + 1), b)

/-- Non-greedy `C+?` matching: try run lengths shortest first. -/
def lazyCapture (p : Char → Bool) (s : List Char) (k : List Char → Option β) :
    Option (List Char × β) :=
  (List.range (s.takeWhile p).length).findSome? fun i =>
    (k (s.drop (i + 1))).map fun b => (s.take (i + 1), b)

/-- The suffix language of `(?:\.git)?(?:/)?$` (and of `(?:\.git)?/?$` in the
SSH pattern): exactly the four listed remainders are accepted. -/
def tailGitSlashEnd (l : List Char) : Bool :=
  l = [] || l = ['/'] ||
  l = ['.', 'g', 'i', 't'] || l = ['.', 'g', 'i', 't', '/']

/-- `(?:pull/(?P<pr>\d+))?` followed by the .git/slash/end tail.  Returns the
captured PR number; `some none` means the optional group matched empty. -/
def prPart (l : List Char) : Option (Option Nat) :=
  if ('p' :: 'u' :: 'l' :: 'l' :: '/' :: []).isPrefixOf l then
    match greedyCapture Char.isDigit (l.drop 5)
        (fun after => if tailGitSlashEnd after then some () else none) with
    | some (ds, _) => some (some (digitsToNat ds))
    | none => if tailGitSlashEnd l then some none else none
  else if tailGitSlashEnd l then some none else none

/-- `(?:(?:tree|blob)/(?P<branch>[^/]+))?` followed by prPart.  Returns the
captured branch and PR number. -/
def branchPart (l : List Char) : Option (Option (List Char) × Option Nat) :=
  if ('t' :: 'r' :: 'e' :: 'e' :: '/' :: []).isPrefixOf l then
    match greedyCapture noSlash (l.drop 5) prPart with
    | some (b, pr) => some (some b, pr)
    | none => (prPart l).map fun pr => (none, pr)
  else if ('b' :: 'l' :: 'o' :: 'b' :: '/' :: []).isPrefixOf l then
    match greedyCapture noSlash (l.drop 5) prPart with
    | some (b, pr) => some (some b, pr)
    | none => (prPart l).map fun pr => (none, pr)
  else
    (prPart l).map fun pr => (none, pr)

/-- `(?:/)?` then branchPart, with the greedy optional slash backtracking. -/
def afterRepo (l : List Char) : Option (Option (List Char) × Option Nat) :=
  if l.head? = some '/' then (branchPart l.tail).or (branchPart l)
  else branchPart l

/-- `(?P<repo>[^/]+?)` (non-greedy) followed by afterRepo. -/
def repoTail (l : List Char) : Option (List Char × Option (List Char) × Option Nat) :=
  (lazyCapture noSlash l afterRepo).map fun (r, bp) => (r, bp.1, bp.2)

/-- `(?P<owner>[^/]+)/` followed by repoTail (shared tail of the HTTPS and
bare patterns). -/
def hostTail (l : List Char) : Option (List Char × List Char × Option (List Char) × Option Nat) :=
  if (l.takeWhile noSlash).isEmpty then none
  else if (l.drop (l.takeWhile noSlash).length).head? = some '/' then
    (repoTail (l.drop (l.takeWhile noSlash).length).tail).map
      fun (r, b, pr) => (l.takeWhile noSlash, r, b, pr)
  else none

/-- Tail of the SSH pattern after `owner/`:
`(?P<repo>[^/]+?)(?:\.git)?/?$`. -/
def sshTail (l : List Char) : Option (List Char × List Char) :=
  if (l.takeWhile noSlash).isEmpty then none
  else if (l.drop (l.takeWhile noSlash).length).head? = some '/' then
    (lazyCapture noSlash (l.drop (l.takeWhile noSlash).length).tail
      (fun after => if tailGitSlashEnd after then some () else none)).map
      fun (r, _) => (l.takeWhile noSlash, r)
  else none

/-- Owner-name character class of SHORT_PATTERN: [a-zA-Z0-9_-]. -/
def isOwnerChar (c : Char) : Bool :=
  c.isAlpha || c.isDigit || c = '_' || c = '-'

/-- Repo-name character class of SHORT_PATTERN: [a-zA-Z0-9_.-]. -/
def isRepoChar (c : Char) : Bool := isOwnerChar c || c = '.'

/-- SHORT_PATTERN: `^[a-zA-Z0-9_-]+/[a-zA-Z0-9_.-]+$`. -/
def shortMatch (l : List Char) : Option (List Char × List Char) :=
  if (l.takeWhile isOwnerChar).isEmpty then none
  else if (l.drop (l.takeWhile isOwnerChar).length).head? = some '/' then
    if (l.drop (l.takeWhile isOwnerChar).length).tail ≠ [] ∧
        ((l.drop (l.takeWhile isOwnerChar).length).tail).all isRepoChar then
      some (l.takeWhile isOwnerChar, (l.drop (l.takeWhile isOwnerChar).length).tail)
    else none
  else none

/-- Build a GitHubRepoInfo from the HTTPS/bare captures (owner, repo, branch,
pr), in the order the Python constructor receives them. -/
def mkInfo (t : List Char × List Char × Option (List Char) × Option Nat) :
    GitHubRepoInfo :=
  { owner := String.mk t.1, repo := String.mk t.2.1,
    pr_number := t.2.2.2, branch := t.2.2.1.map String.mk }

/-- HTTPS_PATTERN: `https?://github\.com/` then the host tail. -/
def httpsMatch (s : List Char) : Option GitHubRepoInfo :=
  ((dropPfx "https://github.com/".data s).or
      (dropPfx "http://github.com/".data s)).bind
    fun rest => (hostTail rest).map mkInfo

/-- BARE_PATTERN: `^github\.com/` then the host tail. -/
def bareMatch (s : List Char) : Option GitHubRepoInfo :=
  (dropPfx "github.com/".data s).bind fun rest => (hostTail rest).map mkInfo

/-- SSH_PATTERN: `git@github\.com:owner/repo(\.git)?/?$`. -/
def sshMatch (s : List Char) : Option GitHubRepoInfo :=
  (dropPfx "git@github.com:".data s).bind fun rest =>
    (sshTail rest).map fun (o, r) =>
      { owner := String.mk o, repo := String.mk r }

/-- GitHubURLParser.parse: strip the input, then try the four patterns in
order; return none when no pattern matches. -/
def parse (url : String) : Option GitHubRepoInfo :=
  match httpsMatch (pyStrip url.data) with
  | some i => some i
  | none =>
    match bareMatch (pyStrip url.data) with
    | some i => some i
    | none =>
      match sshMatch (pyStrip url.data) with
      | some i => some i
      | none =>
        match shortMatch (pyStrip url.data) with
        | some (o, r) => some { owner := String.mk o, repo := String.mk r }
        | none => none

end GitHubURLParser

/-! ### Rule documents (src/services/standalone_analyzer.py, rule loading)

yaml.safe_load output is modelled by the Yaml inductive; the loader function
itself (the external yaml library) is an environment parameter of type
String to Except String Yaml, a thrown YAMLError being Except.error. -/

/-- A YAML document value as returned by yaml.safe_load. -/
inductive Yaml where
  | null : Yaml
  | bool : Bool → Yaml
  | num : Int → Yaml
  | str : String → Yaml
  | seq : List Yaml → Yaml
  | map : List (String × Yaml) → Yaml
deriving Repr

/-- Lookup in a YAML mapping (`"rules" in rules_data` / `rules_data["rules"]`). -/
def yamlLookup (k : String) : List (String × Yaml) → Option Yaml
  | [] => none
  | (k', v) :: rest => if k' = k then some v else yamlLookup k rest

/-- Python iteration over the value found at "rules": a list yields its
elements, a string yields its characters, a dict yields its keys, and any
other value raises TypeError. -/
def pyIter : Yaml → Except String (List Yaml)
  | .seq xs => .ok xs
  | .str s => .ok (s.data.map fun c => Yaml.str (String.mk [c]))
  | .map kvs => .ok (kvs.map fun kv => Yaml.str kv.1)
  | _ => .error "TypeError: object is not iterable"

/-- A parsed rule record.  Its fields are validated by the external
GitHubRuleLoader._parse_rule, which the analyzer treats as opaque; the
payload retains the source entry. -/
structure Rule where
  payload : Yaml
deriving Repr

/-- The outcome signature of GitHubRuleLoader._parse_rule: it may raise
(Except.error), return a falsy value (ok none) or return a rule (ok some). -/
abbrev ParseRuleFn := Yaml → Except String (Option Rule)

/-- One iteration of the entry loop in _parse_rules_from_yaml: a non-dict
entry is skipped (continue), an entry on which _parse_rule raises is skipped
with a warning (continue), and a falsy _parse_rule return is not appended. -/
def entryRule (parseRule : ParseRuleFn) (e : Yaml) : Option Rule :=
  match e with
  | .map m =>
    match parseRule (.map m) with
    | .ok (some r) => some r
    | _ => none
  | _ => none

/-- An entry is well-formed when the loop keeps it: it is a dict and
_parse_rule returns a rule for it. -/
def wellFormedEntry (parseRule : ParseRuleFn) (e : Yaml) : Bool :=
  (entryRule parseRule e).isSome

/-- The loop of _parse_rules_from_yaml over an already-loaded document:
a document that is not a mapping or has no top-level "rules" key yields [],
and a non-iterable "rules" value raises TypeError, which the surrounding
handler turns into []. -/
def parse_rules_from_doc (parseRule : ParseRuleFn) : Yaml → List Rule
  | .map kvs =>
    match yamlLookup "rules" kvs with
    | none => []
    | some rv =>
      match pyIter rv with
      | .error _ => []
      | .ok entries => entries.filterMap (entryRule parseRule)
  | _ => []

/-- _parse_rules_from_yaml: yaml.safe_load then the entry loop; any error
(including a safe_load failure) yields []. -/
def parse_rules_from_yaml (yamlLoad : String → Except String Yaml)
    (parseRule : ParseRuleFn) (content : String) : List Rule :=
  match yamlLoad content with
  | .error _ => []
  | .ok doc => parse_rules_from_doc parseRule doc

/-- _load_rules: explicit rules_yaml if truthy; else the repository rules
file when the fetch returns truthy content (a fetch exception only logs a
warning); else the local fallback file when it exists; else []. -/
def load_rules (yamlLoad : String → Except String Yaml) (parseRule : ParseRuleFn)
    (rulesYaml : Option String) (repoFetch : Except String (Option String))
    (localFile : Option String) : List Rule :=
  if strOptTruthy rulesYaml then
    parse_rules_from_yaml yamlLoad parseRule (rulesYaml.getD "")
  else
    match repoFetch with
    | .ok c =>
      if strOptTruthy c then parse_rules_from_yaml yamlLoad parseRule (c.getD "")
      else
        match localFile with
        | some content => parse_rules_from_yaml yamlLoad parseRule content
        | none => []
    | .error _ =>
      match localFile with
      | some content => parse_rules_from_yaml yamlLoad parseRule content
      | none => []

/-! ### PR metadata, violations and the evaluation context -/

/-- PR metadata as returned by the GitHub list/get endpoints: a dict whose
"number" and "title" entries are read with .get, and whose "user" entry is
untyped JSON. -/
structure PRMeta where
  number : Option Nat := none
  title : Option String := none
  user : Json := .null
deriving Repr

/-- A violation produced by the evaluation engine (core.models.Violation);
the engine-produced payload is opaque, pr_number is stamped afterwards. -/
structure Violation where
  payload : Json := .null
  pr_number : Option Nat := none
deriving Repr

/-- The changed_files projection entry retaining only
filename/status/additions/deletions (each read with .get). -/
structure ChangedFile where
  filename : Option Json
  status : Option Json
  additions : Option Json
  deletions : Option Json
deriving Repr

/-- The event_data bag assembled by _build_event_data.  An Option field
models a key that may be absent from the dict. -/
structure EventData where
  pr_details : PRMeta
  triggering_user : Option Json
  reviews : Option (List Json) := none
  files : Option (List Json) := none
  changed_files : Option (List ChangedFile) := none
  codeowners_content : Option String := none
deriving Repr

/-- `(pr_data.get("user") or \x7b\x7d).get("login")`: a falsy user value is
replaced by an empty dict, and .get on a truthy non-dict value raises
AttributeError. -/
def triggeringUser (u : Json) : Except String (Option Json) :=
  match (if jsonTruthy u then u else Json.obj []) with
  | .obj kvs => .ok (jsonLookup "login" kvs)
  | _ => .error "AttributeError: object has no attribute get"

/-- _fetch_pr_reviews: every exception inside is caught and yields [];
a missing auth header or a non-200 response also yields [] and is folded
into the ok branch of the environment outcome. -/
def fetch_pr_reviews (raw : Except String (List Json)) : List Json :=
  match raw with
  | .ok l => l
  | .error _ => []

/-- _fetch_pr_files: identical fault handling to _fetch_pr_reviews. -/
def fetch_pr_files (raw : Except String (List Json)) : List Json :=
  match raw with
  | .ok l => l
  | .error _ => []

/-- One entry of the changed_files comprehension: f.get(...) on a non-dict
list element raises AttributeError. -/
def projectFile (f : Json) : Except String ChangedFile :=
  match f with
  | .obj kvs =>
    .ok { filename := jsonLookup "filename" kvs, status := jsonLookup "status" kvs,
          additions := jsonLookup "additions" kvs, deletions := jsonLookup "deletions" kvs }
  | _ => .error "AttributeError: object has no attribute get"

/-- The changed_files comprehension over the fetched files. -/
def projectFiles : List Json → Except String (List ChangedFile)
  | [] => .ok []
  | f :: rest =>
    match projectFile f with
    | .error e => .error e
    | .ok cf =>
      match projectFiles rest with
      | .error e => .error e
      | .ok cfs => .ok (cf :: cfs)

/-- The fixed candidate paths probed by _fetch_codeowners, in order. -/
def codeownersPaths : List String :=
  [".github/CODEOWNERS", "CODEOWNERS", "docs/CODEOWNERS"]

/-- The probe loop of _fetch_codeowners: an exception for one path moves on
to the next; truthy content returns immediately; falsy content (None or the
empty string) also moves on. -/
def fetch_codeowners (getFile : String → Except String (Option String)) :
    List String → Option String
  | [] => none
  | p :: rest =>
    match getFile p with
    | .error _ => fetch_codeowners getFile rest
    | .ok c =>
      if strOptTruthy c then c else fetch_codeowners getFile rest

/-- _build_event_data: assemble the event bag.  The dict literal computes
triggering_user first (a possible AttributeError); when the PR number is
truthy, the reviews/files/changed_files/codeowners fields are added, the
two sub-fetches being individually fault-tolerant and the comprehension a
possible AttributeError on a malformed file entry.  codeowners_content is
only set when the probe returned content. -/
def build_event_data (reviewsRaw filesRaw : Nat → Except String (List Json))
    (getFile : String → Except String (Option String)) (pr : PRMeta) :
    Except String EventData :=
  match triggeringUser pr.user with
  | .error e => .error e
  | .ok tu =>
    if natOptTruthy pr.number then
      let n := pr.number.getD 0
      let reviews := fetch_pr_reviews (reviewsRaw n)
      let files := fetch_pr_files (filesRaw n)
      match projectFiles files with
      | .error e => .error e
      | .ok cfs =>
        .ok { pr_details := pr, triggering_user := tu, reviews := some reviews,
              files := some files, changed_files := some cfs,
              codeowners_content := fetch_codeowners getFile codeownersPaths }
    else
      .ok { pr_details := pr, triggering_user := tu }

/-- _evaluate_rules: run the engine inside a try/except.  The engine outcome
is `ok none` when result.data has no usable evaluation_result, `ok (some vs)`
when it produced violations, and `error` when anything inside raised.  The
PR number taken from pull_request_details is stamped onto every violation. -/
def evaluate_rules (engineOutcome : Except String (Option (List Violation)))
    (prNum : Option Nat) : List Violation :=
  match engineOutcome with
  | .error _ => []
  | .ok none => []
  | .ok (some vs) => vs.map fun v => { v with pr_number := prNum }

/-! ### The analyzer (StandaloneAnalyzer) -/

/-- One per-PR entry of the prs_analyzed list.  Option fields model dict
keys that a path may leave absent: the single-PR path writes no
"violations" and no "error" key. -/
structure PRSummaryEntry where
  number : Option Nat
  title : Option String
  violationsCount : Nat
  violations : Option (List Violation)
  error : Option String
deriving Repr

/-- The AnalysisResult aggregate (processing_time_ms, a wall-clock reading,
is not part of the functional model). -/
structure AnalysisResult where
  success : Bool
  violations : List Violation
  rules_loaded : Nat
  error : Option String := none
  repo_info : Option GitHubRepoInfo := none
  pr_data : Option PRMeta := none
  prs_analyzed : List PRSummaryEntry := []
deriving Repr

/-- Observable outcomes of every external call the analyzer makes, keyed the
way the code keys them.  Except.error stands for a raised exception. -/
structure AnalyzeEnv where
  /-- github_client.get_repository: dict, None, or a raised exception. -/
  repoLookup : Except String (Option Json)
  githubToken : Option String := none
  rulesYaml : Option String := none
  yamlLoad : String → Except String Yaml
  parseRule : ParseRuleFn
  /-- github_client.get_file_content for the repository rules file. -/
  repoRulesFetch : Except String (Option String) := .ok none
  /-- The local fallback rules file: some content iff the file exists. -/
  localRules : Option String := none
  /-- _fetch_pr_data for a given PR number; None also covers a falsy dict. -/
  prLookup : Nat → Option PRMeta := fun _ => none
  /-- Single-page open-PR fetch (per_page = limit), already fault-isolated. -/
  openPRs : Nat → List PRMeta := fun _ => []
  /-- Paginated open-PR fetch (limit = max_prs), already fault-isolated. -/
  openPRsPaginated : Nat → List PRMeta := fun _ => []
  reviewsRaw : Nat → Except String (List Json) := fun _ => .ok []
  filesRaw : Nat → Except String (List Json) := fun _ => .ok []
  getFile : String → Except String (Option String) := fun _ => .ok none
  /-- engine_agent.execute plus result unpacking, per rule set and event. -/
  engine : List Rule → EventData → Except String (Option (List Violation)) :=
    fun _ _ => .ok none

/-- The body of one batch iteration: build the event bag, then evaluate
(evaluate_rules itself never raises). -/
def prStep (env : AnalyzeEnv) (rules : List Rule) (pr : PRMeta) :
    Except String (List Violation) :=
  match build_event_data env.reviewsRaw env.filesRaw env.getFile pr with
  | .error e => .error e
  | .ok ed => .ok (evaluate_rules (env.engine rules ed) ed.pr_details.number)

/-- The batch loop of _analyze_latest_prs: per PR, extend the flat violation
list and append a summary; a raised error is caught, recorded on that PR
and the loop continues. -/
def batchLoop (step : PRMeta → Except String (List Violation)) :
    List PRMeta → List Violation × List PRSummaryEntry
  | [] => ([], [])
  | pr :: rest =>
    let hd : List Violation × PRSummaryEntry :=
      match step pr with
      | .ok vs =>
        (vs, { number := pr.number, title := some (pr.title.getD ""),
               violationsCount := vs.length, violations := some vs, error := none })
      | .error e =>
        ([], { number := pr.number, title := some (pr.title.getD ""),
               violationsCount := 0, violations := some [], error := some e })
    let tl := batchLoop step rest
    (hd.1 ++ tl.1, hd.2 :: tl.2)

/-- The repository-not-found message: the rate-limit hint is appended only
when no (truthy) token was supplied. -/
def rateLimitHint : String :=
  ". Note: GitHub API has a rate limit of 60 req/hr for anonymous access. If you\x27re seeing this frequently, consider adding a GitHub Personal Access Token for higher limits (5,000 req/hr)."

/-- The base repository-not-found message. -/
def repoNotFoundBase (info : GitHubRepoInfo) : String :=
  "Repository not found or access denied: " ++ info.full_name

/-- The full repository-not-found message as built by analyze. -/
def repoNotFoundMsg (info : GitHubRepoInfo) (token : Option String) : String :=
  if strOptTruthy token then repoNotFoundBase info
  else repoNotFoundBase info ++ rateLimitHint

/-- The fixed no-rules message. -/
def noRulesMsg : String :=
  "No rules found. Please provide rules or ensure .watchflow/rules.yaml exists."

/-- The fixed no-open-PRs message. -/
def noOpenPRsMsg : String :=
  "No open pull requests found in this repository."

/-- _analyze_latest_prs: choose the fetch strategy on the max_prs > 20
threshold, fail when no PRs came back, otherwise run the batch loop and
aggregate with success = true and the first fetched PR as representative. -/
def analyze_latest_prs (env : AnalyzeEnv) (info : GitHubRepoInfo)
    (rules : List Rule) (rulesLoaded : Nat) (maxPrs : Nat) : AnalysisResult :=
  let prs := if 20 < maxPrs then env.openPRsPaginated maxPrs else env.openPRs maxPrs
  if prs.isEmpty then
    { success := false, violations := [], rules_loaded := rulesLoaded,
      error := some noOpenPRsMsg, repo_info := some info }
  else
    let r := batchLoop (prStep env rules) prs
    { success := true, violations := r.1, rules_loaded := rulesLoaded,
      repo_info := some info, pr_data := prs.head?, prs_analyzed := r.2 }

/-- _analyze_single_pr: a missing PR fails; otherwise build the event bag
(an exception here propagates to the caller), evaluate, and aggregate with
a single slim summary (no "violations"/"error" keys). -/
def analyze_single_pr (env : AnalyzeEnv) (info : GitHubRepoInfo) (n : Nat)
    (rules : List Rule) (rulesLoaded : Nat) : Except String AnalysisResult :=
  match env.prLookup n with
  | none =>
    .ok { success := false, violations := [], rules_loaded := rulesLoaded,
          error := some ("PR #" ++ toString n ++ " not found or access denied"),
          repo_info := some info }
  | some prData =>
    match build_event_data env.reviewsRaw env.filesRaw env.getFile prData with
    | .error e => .error e
    | .ok ed =>
      let violations := evaluate_rules (env.engine rules ed) ed.pr_details.number
      .ok { success := true, violations := violations, rules_loaded := rulesLoaded,
            repo_info := some info, pr_data := some prData,
            prs_analyzed := [{ number := prData.number, title := prData.title,
                               violationsCount := violations.length,
                               violations := none, error := none }] }

/-- `if pr_number is None: pr_number = repo_info.pr_number`. -/
def resolvePrNumber (prNumberArg : Option Nat) (info : GitHubRepoInfo) : Option Nat :=
  match prNumberArg with
  | some n => some n
  | none => info.pr_number

/-- The try-block of StandaloneAnalyzer.analyze; an Except.error is an
exception escaping to the outer handler. -/
def analyzeBody (env : AnalyzeEnv) (info : GitHubRepoInfo)
    (prNumberArg : Option Nat) (maxPrs : Nat) : Except String AnalysisResult :=
  let prNumber := resolvePrNumber prNumberArg info
  match env.repoLookup with
  | .error e => .error e
  | .ok repoData =>
    if jsonTruthy (repoData.getD Json.null) = false then
      .ok { success := false, violations := [], rules_loaded := 0,
            error := some (repoNotFoundMsg info env.githubToken),
            repo_info := some info }
    else
      let rules := load_rules env.yamlLoad env.parseRule env.rulesYaml
        env.repoRulesFetch env.localRules
      if rules.isEmpty then
        .ok { success := false, violations := [], rules_loaded := 0,
              error := some noRulesMsg, repo_info := some info }
      else if natOptTruthy prNumber then
        analyze_single_pr env info (prNumber.getD 0) rules rules.length
      else
        .ok (analyze_latest_prs env info rules rules.length maxPrs)

/-- StandaloneAnalyzer.analyze: the outer try/except turns any escaped
exception into a failed result with rules_loaded = 0. -/
def analyze (env : AnalyzeEnv) (info : GitHubRepoInfo)
    (prNumberArg : Option Nat) (maxPrs : Nat) : AnalysisResult :=
  match analyzeBody env info prNumberArg maxPrs with
  | .ok r => r
  | .error e =>
    { success := false, violations := [], rules_loaded := 0,
      error := some e, repo_info := some info }

/-- The max_prs field constraint of AnalyzeRequest (Field ge=1, le=200):
requests outside the range are rejected by validation before orchestration. -/
def maxPrsValid (n : Int) : Bool := 1 ≤ n && n ≤ 200

/-- The summary entry recorded for a successful step outcome. -/
def okEntry (pr : PRMeta) (vs : List Violation) : PRSummaryEntry :=
  { number := pr.number, title := some (pr.title.getD ""),
    violationsCount := vs.length, violations := some vs, error := none }

/-- The summary entry recorded for a failed step outcome. -/
def errEntry (pr : PRMeta) (e : String) : PRSummaryEntry :=
  { number := pr.number, title := some (pr.title.getD ""),
    violationsCount := 0, violations := some [], error := some e }

/-! ### Shared concrete environments used by the closed witnesses -/

/-- A concrete yaml.safe_load stand-in: the string "good" loads to a
document with one rule entry, anything else loads to a bare scalar. -/
def yamlLoad0 : String → Except String Yaml := fun s =>
  if s = "good" then
    .ok (Yaml.map [("rules", Yaml.seq [Yaml.map [("description", Yaml.str "r1")]])])
  else .ok (Yaml.str s)

/-- A concrete _parse_rule stand-in accepting every dict entry. -/
def parseRule0 : ParseRuleFn := fun y => .ok (some { payload := y })

/-- A concrete repository reference. -/
def info0 : GitHubRepoInfo := { owner := "octo", repo := "demo" }

/-- A PR whose processing succeeds. -/
def prOk : PRMeta := { number := some 1, title := some "one" }

/-- A PR whose metadata carries a truthy non-dict user value, so that
building its event bag raises AttributeError. -/
def prBad : PRMeta := { number := some 2, title := some "two", user := Json.str "evil" }

/-- An environment whose single-page fetch returns one good and one bad PR. -/
def envBatch : AnalyzeEnv :=
  { repoLookup := .ok (some (Json.obj [("id", Json.num 1)])),
    rulesYaml := some "good",
    yamlLoad := yamlLoad0, parseRule := parseRule0,
    openPRs := fun _ => [prOk, prBad] }

/-- An environment whose engine always raises. -/
def envCrash : AnalyzeEnv :=
  { repoLookup := .ok (some (Json.obj [("id", Json.num 1)])),
    yamlLoad := yamlLoad0, parseRule := parseRule0,
    prLookup := fun n => if n = 1 then some prOk else none,
    engine := fun _ _ => .error "engine crashed" }

/-- The event bag built for prOk under envCrash. -/
def edOk : EventData :=
  { pr_details := prOk, triggering_user := none, reviews := some [],
    files := some [], changed_files := some [], codeowners_content := none }


/-- A _parse_rule stand-in with one rejected shape, one raising shape and
one falsy-return shape, used to exercise malformed entries. -/
def parseRule1 : ParseRuleFn := fun y =>
  match y with
  | .map [("bad", _)] => .error "bad rule"
  | .map [] => .ok none
  | _ => .ok (some { payload := y })

/-- A mixed rule document body: one well-formed entry, one non-dict entry,
one entry on which parsing raises, and one falsy-parse entry. -/
def mixedEntries : List Yaml :=
  [Yaml.map [("description", Yaml.str "a")], Yaml.str "junk",
   Yaml.map [("bad", Yaml.null)], Yaml.map []]

/-- String suffix test (List.isSuffixOf on the character lists). -/
def strEndsWith (s t : String) : Bool := t.data.isSuffixOf s.data

/-- An environment whose repository lookup returns None (not found). -/
def envRepoMissing : AnalyzeEnv :=
  { repoLookup := .ok none, yamlLoad := yamlLoad0, parseRule := parseRule0 }

/-- An environment carrying a non-empty paginated fetch result. -/
def envPaginated : AnalyzeEnv :=
  { repoLookup := .ok (some (Json.obj [("id", Json.num 1)])),
    yamlLoad := yamlLoad0, parseRule := parseRule0,
    openPRsPaginated := fun _ => [prOk] }

/-- An environment where one resolved rule exists and the targeted PR's
context build raises, so the outer handler produces the result. -/
def envC7 : AnalyzeEnv :=
  { repoLookup := .ok (some (Json.obj [("id", Json.num 1)])),
    rulesYaml := some "good", yamlLoad := yamlLoad0, parseRule := parseRule0,
    prLookup := fun n => if n = 2 then some prBad else none }

/-- A file-content fetcher whose second CODEOWNERS candidate has content. -/
def gfHit : String → Except String (Option String) := fun p =>
  if p = "CODEOWNERS" then .ok (some "owners") else .ok none

namespace GitHubURLParser

/-- The literal character list of ".git". -/
def gitList : List Char := ['.', 'g', 'i', 't']

/-- A well-formed owner segment: non-empty, in the owner character class. -/
def validOwnerL (o : List Char) : Prop :=
  o ≠ [] ∧ ∀ c ∈ o, isOwnerChar c = true

/-- A well-formed repository segment: non-empty, in the repo character
class, and not carrying a proper ".git" suffix (which the patterns strip). -/
def validRepoL (r : List Char) : Prop :=
  r ≠ [] ∧ (∀ c ∈ r, isRepoChar c = true) ∧
    ¬(gitList.isSuffixOf r = true ∧ 4 < r.length)

/-- A well-formed branch segment: non-empty, slash-free and
whitespace-free. -/
def validBranchL (b : List Char) : Prop :=
  b ≠ [] ∧ ∀ c ∈ b, noSlash c = true ∧ isPySpace c = false

/-- A well-formed PR-number segment: a non-empty digit string. -/
def validDigitsL (ds : List Char) : Prop :=
  ds ≠ [] ∧ ∀ c ∈ ds, Char.isDigit c = true

end GitHubURLParser

/-! ### Helper lemmas about the batch loop -/

theorem batchLoop_fst_eq_flatten (step : PRMeta → Except String (List Violation)) :
    ∀ prs, (batchLoop step prs).1 =
      ((batchLoop step prs).2.map (fun s => s.violations.getD [])).flatten
  | [] => rfl
  | pr :: rest => by
    have ih := batchLoop_fst_eq_flatten step rest
    cases hs : step pr <;> simp [batchLoop, hs, ih]

theorem batchLoop_counts (step : PRMeta → Except String (List Violation)) :
    ∀ prs, ((batchLoop step prs).2.map (fun s => s.violationsCount)).sum =
      (batchLoop step prs).1.length
  | [] => rfl
  | pr :: rest => by
    have ih := batchLoop_counts step rest
    cases hs : step pr <;> simp [batchLoop, hs, ih]

theorem batchLoop_length (step : PRMeta → Except String (List Violation)) :
    ∀ prs, (batchLoop step prs).2.length = prs.length
  | [] => rfl
  | pr :: rest => by
    have ih := batchLoop_length step rest
    cases hs : step pr <;> simp [batchLoop, hs, ih]

theorem batchLoop_get?_ok (step : PRMeta → Except String (List Violation)) :
    ∀ (prs : List PRMeta) (i : Nat) (pr : PRMeta) (vs : List Violation),
      prs[i]? = some pr → step pr = .ok vs →
      ((batchLoop step prs).2)[i]? = some (okEntry pr vs) := by
  intro prs
  induction prs with
  | nil => intro i pr vs hget _; simp at hget
  | cons q rest ih =>
    intro i pr vs hget hs
    cases i with
    | zero =>
      simp at hget
      subst hget
      cases hq : step q <;> rw [hq] at hs <;> simp [batchLoop, hq] <;>
        simp_all [okEntry]
    | succ i =>
      simp at hget
      have h2 := ih i pr vs hget hs
      cases hq : step q <;> simp [batchLoop, hq, h2]

theorem batchLoop_get?_err (step : PRMeta → Except String (List Violation)) :
    ∀ (prs : List PRMeta) (i : Nat) (pr : PRMeta) (e : String),
      prs[i]? = some pr → step pr = .error e →
      ((batchLoop step prs).2)[i]? = some (errEntry pr e) := by
  intro prs
  induction prs with
  | nil => intro i pr e hget _; simp at hget
  | cons q rest ih =>
    intro i pr e hget hs
    cases i with
    | zero =>
      simp at hget
      subst hget
      cases hq : step q <;> rw [hq] at hs <;> simp [batchLoop, hq] <;>
        simp_all [errEntry]
    | succ i =>
      simp at hget
      have h2 := ih i pr e hget hs
      cases hq : step q <;> simp [batchLoop, hq, h2]

/-! ### C1 and C2: the batch loop invariants -/

/-- C1: for every batch analysis, the top-level violations list is the
concatenation, in PR-fetch order, of the per-PR summaries' violations
lists, and the summed violationsCount equals its length (failed PRs
contribute an empty list). -/
theorem batch_flat_violations (env : AnalyzeEnv) (info : GitHubRepoInfo)
    (rules : List Rule) (rulesLoaded maxPrs : Nat) :
    (analyze_latest_prs env info rules rulesLoaded maxPrs).violations =
      ((analyze_latest_prs env info rules rulesLoaded maxPrs).prs_analyzed.map
        (fun s => s.violations.getD [])).flatten ∧
    ((analyze_latest_prs env info rules rulesLoaded maxPrs).prs_analyzed.map
        (fun s => s.violationsCount)).sum =
      (analyze_latest_prs env info rules rulesLoaded maxPrs).violations.length := by
  unfold analyze_latest_prs
  by_cases h :
      (if 20 < maxPrs then env.openPRsPaginated maxPrs else env.openPRs maxPrs).isEmpty <;>
    simp [h, batchLoop_fst_eq_flatten, batchLoop_counts]

/-- Evaluation equation for analyze_latest_prs when the fetch returned a
non-empty list. -/
theorem analyze_latest_prs_cons (env : AnalyzeEnv) (info : GitHubRepoInfo)
    (rules : List Rule) (rulesLoaded maxPrs : Nat) (a : PRMeta) (l : List PRMeta)
    (hfetch : (if 20 < maxPrs then env.openPRsPaginated maxPrs else env.openPRs maxPrs) = a :: l) :
    analyze_latest_prs env info rules rulesLoaded maxPrs =
      { success := true, violations := (batchLoop (prStep env rules) (a :: l)).1,
        rules_loaded := rulesLoaded, repo_info := some info,
        pr_data := some a, prs_analyzed := (batchLoop (prStep env rules) (a :: l)).2 } := by
  unfold analyze_latest_prs
  rw [hfetch]
  rfl

/-- C2: a batch over N fetched PRs yields exactly N summaries in fetch
order; a PR whose processing raises gets a summary with its number, title,
zero count, empty violations and the error message, the loop continues,
and the result still has success = true. -/
theorem batch_per_pr_fault_isolation (env : AnalyzeEnv) (info : GitHubRepoInfo)
    (rules : List Rule) (rulesLoaded maxPrs : Nat) (prs : List PRMeta)
    (hfetch : prs = if 20 < maxPrs then env.openPRsPaginated maxPrs else env.openPRs maxPrs)
    (hne : prs ≠ []) :
    (analyze_latest_prs env info rules rulesLoaded maxPrs).success = true ∧
    (analyze_latest_prs env info rules rulesLoaded maxPrs).prs_analyzed.length =
      prs.length ∧
    ∀ (i : Nat) (pr : PRMeta), prs[i]? = some pr →
      (∀ e, prStep env rules pr = .error e →
        (analyze_latest_prs env info rules rulesLoaded maxPrs).prs_analyzed[i]? =
          some (errEntry pr e)) ∧
      (∀ vs, prStep env rules pr = .ok vs →
        (analyze_latest_prs env info rules rulesLoaded maxPrs).prs_analyzed[i]? =
          some (okEntry pr vs)) := by
  obtain ⟨a, l, rfl⟩ : ∃ a l, prs = a :: l := by
    cases prs with
    | nil => exact absurd rfl hne
    | cons a l => exact ⟨a, l, rfl⟩
  rw [analyze_latest_prs_cons env info rules rulesLoaded maxPrs a l hfetch.symm]
  exact ⟨rfl, batchLoop_length _ _, fun i pr hget =>
    ⟨fun e he => batchLoop_get?_err _ _ i pr e hget he,
     fun vs hv => batchLoop_get?_ok _ _ i pr vs hget hv⟩⟩

/-- Closed witness for C2, at a batch of two PRs where the second one
raises while building its event bag. -/
theorem batch_per_pr_fault_isolation_witness :
    (analyze_latest_prs envBatch info0 [] 0 5).success = true ∧
    (analyze_latest_prs envBatch info0 [] 0 5).prs_analyzed.length = 2 ∧
    (analyze_latest_prs envBatch info0 [] 0 5).prs_analyzed[1]? =
      some (errEntry prBad "AttributeError: object has no attribute get") := by
  have h := batch_per_pr_fault_isolation envBatch info0 [] 0 5 [prOk, prBad]
    rfl (by simp)
  exact ⟨h.1, h.2.1, (h.2.2 1 prBad rfl).1 _ rfl⟩

/-! ### C10: an evaluator crash is swallowed into zero violations -/

/-- C10: evaluate_rules catches every engine exception and returns [].  In
single-PR mode the result still has success = true and no error, identical
to the result under an engine that cleanly returns no violations; in batch
mode an engine failure yields a normal zero-violation step outcome, so the
per-PR error-recording branch is never triggered. -/
theorem evaluator_crash_swallowed (env : AnalyzeEnv) (info : GitHubRepoInfo)
    (rules : List Rule) (rulesLoaded n : Nat) (pr : PRMeta) (ed : EventData)
    (e : String)
    (hpr : env.prLookup n = some pr)
    (hb : build_event_data env.reviewsRaw env.filesRaw env.getFile pr = .ok ed)
    (he : env.engine rules ed = .error e) :
    (∀ e' prn, evaluate_rules (Except.error e') prn = ([] : List Violation)) ∧
    prStep env rules pr = .ok [] ∧
    analyze_single_pr env info n rules rulesLoaded =
      .ok { success := true, violations := [], rules_loaded := rulesLoaded,
            repo_info := some info, pr_data := some pr,
            prs_analyzed := [{ number := pr.number, title := pr.title,
                               violationsCount := 0, violations := none,
                               error := none }] } ∧
    analyze_single_pr env info n rules rulesLoaded =
      analyze_single_pr { env with engine := fun _ _ => .ok (some []) }
        info n rules rulesLoaded ∧
    ∀ (prs : List PRMeta) (i : Nat), prs[i]? = some pr →
      ((batchLoop (prStep env rules) prs).2)[i]? = some (okEntry pr []) := by
  have hstep : prStep env rules pr = .ok [] := by
    simp [prStep, hb, he, evaluate_rules]
  refine ⟨fun e' prn => rfl, hstep, ?_, ?_, ?_⟩
  · simp [analyze_single_pr, hpr, hb, he, evaluate_rules]
  · simp [analyze_single_pr, hpr, hb, he, evaluate_rules]
  · intro prs i hget
    exact batchLoop_get?_ok _ prs i pr [] hget hstep

theorem strOptTruthy_none : strOptTruthy none = false := rfl

/-! ### C3: the rule-resolution fallback chain -/

/-- C3 counterexample: with explicit rule text that parses to an empty rule
set and a local fallback file that parses to a non-empty one, resolution
returns the empty explicit parse rather than the result of the first
successful (non-empty-parse) attempt, so "success means a non-empty parse"
does not describe the code. -/
theorem load_rules_first_success_counterexample :
    load_rules yamlLoad0 parseRule0 (some "bad") (Except.ok none) (some "good") = [] ∧
    parse_rules_from_yaml yamlLoad0 parseRule0 "good" ≠ [] := by
  refine ⟨rfl, ?_⟩
  intro h
  rw [show parse_rules_from_yaml yamlLoad0 parseRule0 "good" =
        [{ payload := Yaml.map [("description", Yaml.str "r1")] }] from rfl] at h
  exact List.cons_ne_nil _ _ h

/-- C3 (amended): resolution tries explicit text, repository file, local
fallback in that order and commits to the first available source — explicit
text when provided (non-empty), the repository file when the fetch returned
truthy content, the local file when it exists — returning that source's
parse even when the parse is empty; with explicit text the repository and
the fallback are never consulted, and with no source at all the result is
empty. -/
theorem load_rules_priority_chain :
    (∀ (yl : String → Except String Yaml) (p : ParseRuleFn) (ry : Option String)
        (rf rf' : Except String (Option String)) (lf lf' : Option String),
        strOptTruthy ry = true →
        load_rules yl p ry rf lf = parse_rules_from_yaml yl p (ry.getD "") ∧
        load_rules yl p ry rf lf = load_rules yl p ry rf' lf') ∧
    (∀ (yl : String → Except String Yaml) (p : ParseRuleFn)
        (rf : Except String (Option String)) (c lf lf' : Option String),
        rf = Except.ok c → strOptTruthy c = true →
        load_rules yl p none rf lf = parse_rules_from_yaml yl p (c.getD "") ∧
        load_rules yl p none rf lf = load_rules yl p none rf lf') ∧
    (∀ (yl : String → Except String Yaml) (p : ParseRuleFn)
        (rf : Except String (Option String)) (content : String),
        (∀ c, rf = Except.ok c → strOptTruthy c = false) →
        load_rules yl p none rf (some content) = parse_rules_from_yaml yl p content) ∧
    (∀ (yl : String → Except String Yaml) (p : ParseRuleFn)
        (rf : Except String (Option String)),
        (∀ c, rf = Except.ok c → strOptTruthy c = false) →
        load_rules yl p none rf none = []) := by
  refine ⟨?_, ?_, ?_, ?_⟩
  · intro yl p ry rf rf' lf lf' h
    exact ⟨by simp [load_rules, h], by simp [load_rules, h]⟩
  · rintro yl p rf c lf lf' rfl hc
    refine ⟨?_, ?_⟩ <;> simp [load_rules, strOptTruthy_none, hc]
  · intro yl p rf content hfail
    cases rf with
    | error e => simp [load_rules, strOptTruthy_none]
    | ok c =>
      have hc := hfail c rfl
      simp [load_rules, strOptTruthy_none, hc]
  · intro yl p rf hfail
    cases rf with
    | error e => simp [load_rules, strOptTruthy_none]
    | ok c =>
      have hc := hfail c rfl
      simp [load_rules, strOptTruthy_none, hc]

/-- Closed witness for C3 (amended): the repository source wins when it has
content, and the local fallback wins when the repository fetch raised. -/
theorem load_rules_priority_chain_witness :
    load_rules yamlLoad0 parseRule0 none (Except.ok (some "good")) none =
      parse_rules_from_yaml yamlLoad0 parseRule0 "good" ∧
    load_rules yamlLoad0 parseRule0 none (Except.error "net down") (some "good") =
      parse_rules_from_yaml yamlLoad0 parseRule0 "good" := by
  have h := load_rules_priority_chain
  exact ⟨(h.2.1 yamlLoad0 parseRule0 (Except.ok (some "good"))
            (some "good") none none rfl rfl).1,
         h.2.2.1 yamlLoad0 parseRule0 (Except.error "net down") "good"
           (fun c hc => nomatch hc)⟩

/-! ### C4: rule-document parsing counts -/

theorem filterMap_entryRule_length (p : ParseRuleFn) :
    ∀ es : List Yaml,
      (es.filterMap (entryRule p)).length = es.countP (wellFormedEntry p)
  | [] => rfl
  | e :: es => by
    have ih := filterMap_entryRule_length p es
    cases he : entryRule p e <;>
      simp [List.filterMap_cons, he, List.countP_cons, wellFormedEntry, ih]

theorem filterMap_entryRule_filter (p : ParseRuleFn) :
    ∀ es : List Yaml,
      (es.filter (wellFormedEntry p)).filterMap (entryRule p) =
        es.filterMap (entryRule p)
  | [] => rfl
  | e :: es => by
    have ih := filterMap_entryRule_filter p es
    cases he : entryRule p e <;>
      simp [List.filter_cons, List.filterMap_cons, wellFormedEntry, he, ih]

/-- C4: parsing a document whose rules sequence holds N well-formed and M
malformed entries yields exactly N rules — dropping the malformed entries
changes nothing, so each is skipped individually without aborting the
parse — and a structurally invalid document (not a mapping, or no "rules"
key) yields [] instead of an exception. -/
theorem parse_rules_entry_counts (p : ParseRuleFn) :
    (∀ (kvs : List (String × Yaml)) (es : List Yaml),
        yamlLookup "rules" kvs = some (Yaml.seq es) →
        (parse_rules_from_doc p (Yaml.map kvs)).length =
          es.countP (wellFormedEntry p) ∧
        parse_rules_from_doc p (Yaml.map kvs) =
          parse_rules_from_doc p
            (Yaml.map [("rules", Yaml.seq (es.filter (wellFormedEntry p)))])) ∧
    (∀ doc : Yaml, (∀ kvs, doc ≠ Yaml.map kvs) → parse_rules_from_doc p doc = []) ∧
    (∀ kvs, yamlLookup "rules" kvs = none →
        parse_rules_from_doc p (Yaml.map kvs) = []) := by
  refine ⟨?_, ?_, ?_⟩
  · intro kvs es h
    refine ⟨?_, ?_⟩
    · simp [parse_rules_from_doc, h, pyIter, filterMap_entryRule_length]
    · simp [parse_rules_from_doc, h, pyIter, yamlLookup,
        filterMap_entryRule_filter]
  · intro doc h
    cases doc with
    | map kvs => exact absurd rfl (h kvs)
    | null => rfl
    | bool b => rfl
    | num n => rfl
    | str s => rfl
    | seq xs => rfl
  · intro kvs h
    simp [parse_rules_from_doc, h]

/-- Closed witness for C4: one well-formed entry among three malformed ones
(a non-dict entry, a raising entry, a falsy-parse entry) yields exactly one
rule, and a non-mapping document yields []. -/
theorem parse_rules_entry_counts_witness :
    (parse_rules_from_doc parseRule1 (Yaml.map [("rules", Yaml.seq mixedEntries)])).length = 1 ∧
    mixedEntries.countP (wellFormedEntry parseRule1) = 1 ∧
    parse_rules_from_doc parseRule1 (Yaml.str "oops") = [] := by
  have h := parse_rules_entry_counts parseRule1
  refine ⟨?_, rfl, h.2.1 (Yaml.str "oops") (fun kvs hk => nomatch hk)⟩
  exact (h.1 [("rules", Yaml.seq mixedEntries)] mixedEntries rfl).1.trans rfl

/-! ### C5: fatal failures return structured results -/

/-- The rate-limit hint is a suffix of the not-found message exactly when no
truthy token was supplied (assuming the base message does not itself end in
the hint). -/
theorem endsWith_hint (info : GitHubRepoInfo) (tok : Option String)
    (hbase : strEndsWith (repoNotFoundBase info) rateLimitHint = false) :
    strEndsWith (repoNotFoundMsg info tok) rateLimitHint = !(strOptTruthy tok) := by
  cases h : strOptTruthy tok with
  | true => simpa [repoNotFoundMsg, h] using hbase
  | false =>
    have hmsg : repoNotFoundMsg info tok = repoNotFoundBase info ++ rateLimitHint := by
      simp [repoNotFoundMsg, h]
    rw [hmsg]
    simp [strEndsWith, List.isSuffixOf_iff_suffix]

/-- C5: every fatal failure path of an analysis call — repository not found,
repository lookup raising, no rules resolved, target PR missing, no open
PRs, and an unexpected exception while building the single-PR context —
returns a result with success = false and an empty violations list (there
is no uncaught exception: analyze is total), and the repository-not-found
message ends in the rate-limit hint exactly when no credential was
supplied. -/
theorem analyze_fatal_failures (env : AnalyzeEnv) (info : GitHubRepoInfo)
    (prArg : Option Nat) (mx : Nat)
    (hbase : strEndsWith (repoNotFoundBase info) rateLimitHint = false) :
    (∀ rd, env.repoLookup = Except.ok rd → jsonTruthy (rd.getD Json.null) = false →
      (analyze env info prArg mx).success = false ∧
      (analyze env info prArg mx).violations = [] ∧
      (analyze env info prArg mx).error = some (repoNotFoundMsg info env.githubToken) ∧
      strEndsWith (repoNotFoundMsg info env.githubToken) rateLimitHint =
        !(strOptTruthy env.githubToken)) ∧
    (∀ e, env.repoLookup = Except.error e →
      (analyze env info prArg mx).success = false ∧
      (analyze env info prArg mx).violations = []) ∧
    (∀ rd, env.repoLookup = Except.ok rd → jsonTruthy (rd.getD Json.null) = true →
      load_rules env.yamlLoad env.parseRule env.rulesYaml env.repoRulesFetch
          env.localRules = [] →
      (analyze env info prArg mx).success = false ∧
      (analyze env info prArg mx).violations = [] ∧
      (analyze env info prArg mx).error = some noRulesMsg) ∧
    (∀ rd n, env.repoLookup = Except.ok rd → jsonTruthy (rd.getD Json.null) = true →
      load_rules env.yamlLoad env.parseRule env.rulesYaml env.repoRulesFetch
          env.localRules ≠ [] →
      prArg = some n → n ≠ 0 → env.prLookup n = none →
      (analyze env info prArg mx).success = false ∧
      (analyze env info prArg mx).violations = []) ∧
    (∀ rd, env.repoLookup = Except.ok rd → jsonTruthy (rd.getD Json.null) = true →
      load_rules env.yamlLoad env.parseRule env.rulesYaml env.repoRulesFetch
          env.localRules ≠ [] →
      prArg = none → info.pr_number = none →
      (if 20 < mx then env.openPRsPaginated mx else env.openPRs mx) = [] →
      (analyze env info prArg mx).success = false ∧
      (analyze env info prArg mx).violations = [] ∧
      (analyze env info prArg mx).error = some noOpenPRsMsg) ∧
    (∀ rd n pr e, env.repoLookup = Except.ok rd →
      jsonTruthy (rd.getD Json.null) = true →
      load_rules env.yamlLoad env.parseRule env.rulesYaml env.repoRulesFetch
          env.localRules ≠ [] →
      prArg = some n → n ≠ 0 → env.prLookup n = some pr →
      build_event_data env.reviewsRaw env.filesRaw env.getFile pr = Except.error e →
      (analyze env info prArg mx).success = false ∧
      (analyze env info prArg mx).violations = []) := by
  refine ⟨?_, ?_, ?_, ?_, ?_, ?_⟩
  · intro rd h1 h2
    refine ⟨?_, ?_, ?_, endsWith_hint info env.githubToken hbase⟩ <;>
      simp [analyze, analyzeBody, h1, h2]
  · intro e h1
    constructor <;> simp [analyze, analyzeBody, h1]
  · intro rd h1 h2 hrules
    refine ⟨?_, ?_, ?_⟩ <;> simp [analyze, analyzeBody, h1, h2, hrules]
  · rintro rd n h1 h2 hrules rfl hn hpr
    obtain ⟨a, l, hrl⟩ := List.exists_cons_of_ne_nil hrules
    constructor <;>
      simp [analyze, analyzeBody, h1, h2, hrl, resolvePrNumber, natOptTruthy, hn,
        analyze_single_pr, hpr]
  · rintro rd h1 h2 hrules rfl hinfo hfetch
    obtain ⟨a, l, hrl⟩ := List.exists_cons_of_ne_nil hrules
    refine ⟨?_, ?_, ?_⟩ <;>
      simp [analyze, analyzeBody, h1, h2, hrl, hinfo, resolvePrNumber, natOptTruthy,
        analyze_latest_prs, hfetch]
  · rintro rd n pr e h1 h2 hrules rfl hn hpr hbuild
    obtain ⟨a, l, hrl⟩ := List.exists_cons_of_ne_nil hrules
    constructor <;>
      simp [analyze, analyzeBody, h1, h2, hrl, resolvePrNumber, natOptTruthy, hn,
        analyze_single_pr, hpr, hbuild]

/-- Closed witness for C5: a missing repository under anonymous access. -/
theorem analyze_fatal_failures_witness :
    (analyze envRepoMissing info0 none 5).success = false ∧
    (analyze envRepoMissing info0 none 5).violations = [] ∧
    strEndsWith (repoNotFoundMsg info0 envRepoMissing.githubToken) rateLimitHint = true := by
  have h := (analyze_fatal_failures envRepoMissing info0 none 5 rfl).1 none rfl rfl
  exact ⟨h.1, h.2.1, h.2.2.2.trans rfl⟩

/-- Closed witness for C10 at a concrete crashing engine. -/
theorem evaluator_crash_swallowed_witness :
    prStep envCrash [] prOk = .ok [] ∧
    analyze_single_pr envCrash info0 1 [] 3 =
      .ok { success := true, violations := [], rules_loaded := 3,
            repo_info := some info0, pr_data := some prOk,
            prs_analyzed := [{ number := some 1, title := some "one",
                               violationsCount := 0, violations := none,
                               error := none }] } := by
  have h := evaluator_crash_swallowed envCrash info0 [] 3 1 prOk edOk
    "engine crashed" rfl rfl rfl
  exact ⟨h.2.1, h.2.2.1⟩

/-! ### C6: max_prs bounds and the fetch-strategy threshold -/

/-- C6: max_prs passes request validation exactly when it lies in [1, 200];
with no specific PR targeted, a request above 20 routes through the
paginated fetch (the result does not depend on the single-page fetch and
takes its PRs from the paginated list) and a request at or below 20 routes
through the single-page fetch (symmetrically). -/
theorem maxprs_bounds_and_routing :
    (∀ n : Int, maxPrsValid n = true ↔ 1 ≤ n ∧ n ≤ 200) ∧
    (∀ (env : AnalyzeEnv) (l l' : Nat → List PRMeta) (info : GitHubRepoInfo)
        (rules : List Rule) (rl mx : Nat), 20 < mx →
      analyze_latest_prs { env with openPRs := l } info rules rl mx =
        analyze_latest_prs { env with openPRs := l' } info rules rl mx) ∧
    (∀ (env : AnalyzeEnv) (l l' : Nat → List PRMeta) (info : GitHubRepoInfo)
        (rules : List Rule) (rl mx : Nat), mx ≤ 20 →
      analyze_latest_prs { env with openPRsPaginated := l } info rules rl mx =
        analyze_latest_prs { env with openPRsPaginated := l' } info rules rl mx) ∧
    (∀ (env : AnalyzeEnv) (info : GitHubRepoInfo) (rules : List Rule)
        (rl mx : Nat) (a : PRMeta) (t : List PRMeta), 20 < mx →
      env.openPRsPaginated mx = a :: t →
      (analyze_latest_prs env info rules rl mx).pr_data = some a ∧
      (analyze_latest_prs env info rules rl mx).prs_analyzed.length = (a :: t).length) ∧
    (∀ (env : AnalyzeEnv) (info : GitHubRepoInfo) (rules : List Rule)
        (rl mx : Nat) (a : PRMeta) (t : List PRMeta), mx ≤ 20 →
      env.openPRs mx = a :: t →
      (analyze_latest_prs env info rules rl mx).pr_data = some a ∧
      (analyze_latest_prs env info rules rl mx).prs_analyzed.length = (a :: t).length) := by
  refine ⟨?_, ?_, ?_, ?_, ?_⟩
  · intro n
    simp [maxPrsValid]
  · intro env l l' info rules rl mx hmx
    unfold analyze_latest_prs
    rw [if_pos hmx, if_pos hmx]
    rfl
  · intro env l l' info rules rl mx hmx
    have hnot : ¬ 20 < mx := by omega
    unfold analyze_latest_prs
    rw [if_neg hnot, if_neg hnot]
    rfl
  · intro env info rules rl mx a t hmx hp
    have hfetch : (if 20 < mx then env.openPRsPaginated mx else env.openPRs mx) = a :: t := by
      rw [if_pos hmx]; exact hp
    rw [analyze_latest_prs_cons env info rules rl mx a t hfetch]
    exact ⟨rfl, batchLoop_length _ _⟩
  · intro env info rules rl mx a t hmx hp
    have hnot : ¬ 20 < mx := by omega
    have hfetch : (if 20 < mx then env.openPRsPaginated mx else env.openPRs mx) = a :: t := by
      rw [if_neg hnot]; exact hp
    rw [analyze_latest_prs_cons env info rules rl mx a t hfetch]
    exact ⟨rfl, batchLoop_length _ _⟩

/-- Closed witness for C6: a request of 25 uses the paginated list and
ignores the single-page fetch; the bounds hold at 5. -/
theorem maxprs_bounds_and_routing_witness :
    (analyze_latest_prs envPaginated info0 [] 0 25).pr_data = some prOk ∧
    analyze_latest_prs { envPaginated with openPRs := fun _ => [prBad] } info0 [] 0 25 =
      analyze_latest_prs { envPaginated with openPRs := fun _ => [] } info0 [] 0 25 ∧
    (maxPrsValid 5 = true ↔ 1 ≤ (5 : Int) ∧ (5 : Int) ≤ 200) := by
  have h := maxprs_bounds_and_routing
  exact ⟨(h.2.2.2.1 envPaginated info0 [] 0 25 prOk [] (by omega) rfl).1,
         h.2.1 envPaginated (fun _ => [prBad]) (fun _ => []) info0 [] 0 25 (by omega),
         h.1 5⟩

/-! ### C7: rulesLoaded versus the resolved rule set -/

theorem analyze_latest_prs_rules_loaded (env : AnalyzeEnv) (info : GitHubRepoInfo)
    (rules : List Rule) (rl mx : Nat) :
    (analyze_latest_prs env info rules rl mx).rules_loaded = rl := by
  unfold analyze_latest_prs
  by_cases h : (if 20 < mx then env.openPRsPaginated mx else env.openPRs mx).isEmpty <;>
    simp [h]

/-- C7 counterexample: with one rule resolved and a targeted PR whose
context build raises, the outer exception handler reports rulesLoaded = 0
even though the rule set resolved at evaluation time has size 1, so the
claimed equality does not hold on every returned result. -/
theorem rules_loaded_counterexample :
    (analyze envC7 info0 (some 2) 5).rules_loaded = 0 ∧
    (analyze envC7 info0 (some 2) 5).success = false ∧
    (load_rules envC7.yamlLoad envC7.parseRule envC7.rulesYaml
        envC7.repoRulesFetch envC7.localRules).length = 1 := ⟨rfl, rfl, rfl⟩

/-- C7 (amended): on every result returned by the try-block itself (no
escaped exception), rulesLoaded equals the size of the rule set resolved at
the moment evaluation started — rules are resolved once for the whole call,
including the PR-not-found and batch paths — and is 0 when resolution never
ran (repository not found) or when the lookup raised; only a result coming
from the outer exception handler after resolution reports 0 regardless. -/
theorem rules_loaded_tracks_resolution (env : AnalyzeEnv) (info : GitHubRepoInfo)
    (prArg : Option Nat) (mx : Nat) :
    (∀ rd r, env.repoLookup = Except.ok rd → jsonTruthy (rd.getD Json.null) = true →
      analyzeBody env info prArg mx = Except.ok r →
      r.rules_loaded = (load_rules env.yamlLoad env.parseRule env.rulesYaml
        env.repoRulesFetch env.localRules).length) ∧
    (∀ rd r, env.repoLookup = Except.ok rd → jsonTruthy (rd.getD Json.null) = false →
      analyzeBody env info prArg mx = Except.ok r → r.rules_loaded = 0) ∧
    (∀ e, env.repoLookup = Except.error e →
      (analyze env info prArg mx).rules_loaded = 0) := by
  refine ⟨?_, ?_, ?_⟩
  · intro rd r h1 h2 hbody
    simp only [analyzeBody, h1, h2] at hbody
    cases hrl : load_rules env.yamlLoad env.parseRule env.rulesYaml
        env.repoRulesFetch env.localRules with
    | nil =>
      rw [hrl] at hbody
      simp at hbody
      subst hbody
      simp [hrl]
    | cons a t =>
      rw [hrl] at hbody
      simp only [List.isEmpty_cons, Bool.false_eq_true, if_false] at hbody
      rw [← hrl] at hbody
      by_cases hnum : natOptTruthy (resolvePrNumber prArg info) = true
      · rw [if_pos hnum] at hbody
        unfold analyze_single_pr at hbody
        cases hpr : env.prLookup ((resolvePrNumber prArg info).getD 0) with
        | none =>
          rw [hpr] at hbody
          simp at hbody
          subst hbody
          simp [hrl]
        | some prData =>
          simp only [hpr] at hbody
          cases hb : build_event_data env.reviewsRaw env.filesRaw env.getFile prData with
          | error e => rw [hb] at hbody; simp at hbody
          | ok ed =>
            rw [hb] at hbody
            simp at hbody
            subst hbody
            simp [hrl]
      · rw [if_neg hnum] at hbody
        simp at hbody
        subst hbody
        rw [analyze_latest_prs_rules_loaded]
        simp [hrl]
  · intro rd r h1 h2 hbody
    simp only [analyzeBody, h1, h2] at hbody
    simp at hbody
    subst hbody
    rfl
  · intro e h1
    simp [analyze, analyzeBody, h1]

/-- Closed witness for C7 (amended): a completed batch carries the resolved
rule-set size. -/
theorem rules_loaded_tracks_resolution_witness :
    (analyze envBatch info0 none 5).rules_loaded =
      (load_rules envBatch.yamlLoad envBatch.parseRule envBatch.rulesYaml
        envBatch.repoRulesFetch envBatch.localRules).length ∧
    (analyze envBatch info0 none 5).rules_loaded = 1 := by
  have h := (rules_loaded_tracks_resolution envBatch info0 none 5).1
    (some (Json.obj [("id", Json.num 1)])) (analyze envBatch info0 none 5) rfl rfl rfl
  exact ⟨h, h.trans rfl⟩

/-! ### C8: PR-context building fault tolerance -/

/-- C8 counterexample: a PR metadata record whose user field is a truthy
non-object value makes _build_event_data raise AttributeError, so building
a PR context can abort even though every sub-fetch succeeds. -/
theorem build_event_abort_counterexample :
    build_event_data (fun _ => Except.ok []) (fun _ => Except.ok [])
      (fun _ => Except.ok none) prBad =
      Except.error "AttributeError: object has no attribute get" := rfl

/-- First-hit characterization of the CODEOWNERS probe: a returned content
is the non-empty content of some candidate path all of whose predecessors
returned no truthy content, and if no path has truthy content the probe
returns none (exceptions and empty results just move to the next path). -/
theorem fetch_codeowners_spec (gf : String → Except String (Option String)) :
    ∀ ps : List String,
      (∀ c, fetch_codeowners gf ps = some c →
        c ≠ "" ∧ ∃ pre p suf, ps = pre ++ p :: suf ∧
          gf p = Except.ok (some c) ∧
          ∀ q ∈ pre, ∀ c', gf q = Except.ok (some c') → c' = "") ∧
      ((∀ q ∈ ps, ∀ c', gf q = Except.ok (some c') → c' = "") →
        fetch_codeowners gf ps = none)
  | [] => by
    refine ⟨fun c h => by simp [fetch_codeowners] at h, fun _ => rfl⟩
  | p :: rest => by
    have ih := fetch_codeowners_spec gf rest
    constructor
    · intro c h
      unfold fetch_codeowners at h
      cases hg : gf p with
      | error e =>
        simp only [hg] at h
        obtain ⟨hc, pre, q, suf, heq, hq, hpre⟩ := ih.1 c h
        refine ⟨hc, p :: pre, q, suf, by rw [heq]; rfl, hq, ?_⟩
        intro x hx c' hc'
        rcases List.mem_cons.mp hx with hx | hx
        · subst hx; rw [hg] at hc'; exact nomatch hc'
        · exact hpre x hx c' hc'
      | ok copt =>
        simp only [hg] at h
        by_cases hcopt : strOptTruthy copt = true
        · rw [if_pos hcopt] at h
          subst h
          refine ⟨by simpa [strOptTruthy] using hcopt, [], p, rest, rfl, hg, ?_⟩
          intro x hx
          exact absurd hx (List.not_mem_nil x)
        · rw [if_neg hcopt] at h
          obtain ⟨hc, pre, q, suf, heq, hq, hpre⟩ := ih.1 c h
          refine ⟨hc, p :: pre, q, suf, by rw [heq]; rfl, hq, ?_⟩
          intro x hx c' hc'
          rcases List.mem_cons.mp hx with hx | hx
          · subst hx
            rw [hg] at hc'
            cases hc'' : copt with
            | none => rw [hc''] at hc'; exact nomatch hc'
            | some s =>
              rw [hc''] at hc'
              cases hc'
              rw [hc''] at hcopt
              simpa [strOptTruthy] using hcopt
          · exact hpre x hx c' hc'
    · intro hall
      unfold fetch_codeowners
      cases hg : gf p with
      | error e =>
        exact ih.2 fun q hq c' hc' => hall q (List.mem_cons_of_mem p hq) c' hc'
      | ok copt =>
        have hrest := ih.2 fun q hq c' hc' => hall q (List.mem_cons_of_mem p hq) c' hc'
        cases copt with
        | none => simpa [strOptTruthy] using hrest
        | some s =>
          have hs : s = "" := hall p (List.mem_cons_self p rest) s hg
          subst hs
          simpa [strOptTruthy] using hrest

/-- C8 (amended): no sub-fetch failure aborts building a PR context — a
reviews failure yields an empty reviews list, a files failure yields empty
files and changedFiles lists — and the CODEOWNERS content is the first
truthy content among the fixed candidate paths (probing past a path only
when it raised or returned no truthy content); building can, however,
abort when the PR metadata itself is malformed (a truthy non-object user
value, or a non-object changed-file entry). -/
theorem build_event_fault_isolation (rr fr : Nat → Except String (List Json))
    (gf : String → Except String (Option String)) (pr : PRMeta) (n : Nat)
    (tu : Option Json) (cfs : List ChangedFile)
    (hn : pr.number = some n) (hn0 : n ≠ 0)
    (hu : triggeringUser pr.user = Except.ok tu)
    (hf : projectFiles (fetch_pr_files (fr n)) = Except.ok cfs) :
    build_event_data rr fr gf pr =
      Except.ok { pr_details := pr, triggering_user := tu,
                  reviews := some (fetch_pr_reviews (rr n)),
                  files := some (fetch_pr_files (fr n)),
                  changed_files := some cfs,
                  codeowners_content := fetch_codeowners gf codeownersPaths } ∧
    (∀ e, fetch_pr_reviews (Except.error e) = []) ∧
    (∀ e, fetch_pr_files (Except.error e) = []) ∧
    projectFiles [] = Except.ok [] ∧
    (∀ c, fetch_codeowners gf codeownersPaths = some c →
      c ≠ "" ∧ ∃ pre p suf, codeownersPaths = pre ++ p :: suf ∧
        gf p = Except.ok (some c) ∧
        ∀ q ∈ pre, ∀ c', gf q = Except.ok (some c') → c' = "") ∧
    ((∀ q ∈ codeownersPaths, ∀ c', gf q = Except.ok (some c') → c' = "") →
      fetch_codeowners gf codeownersPaths = none) := by
  refine ⟨?_, fun e => rfl, fun e => rfl, rfl,
    (fetch_codeowners_spec gf codeownersPaths).1,
    (fetch_codeowners_spec gf codeownersPaths).2⟩
  simp [build_event_data, hu, hn, natOptTruthy, hn0, hf]

/-- Closed witness for C8 (amended): both sub-fetches raising and the
second CODEOWNERS candidate holding content. -/
theorem build_event_fault_isolation_witness :
    build_event_data (fun _ => Except.error "reviews down")
        (fun _ => Except.error "files down") gfHit prOk =
      Except.ok { pr_details := prOk, triggering_user := none,
                  reviews := some [], files := some [], changed_files := some [],
                  codeowners_content := some "owners" } := by
  have h := build_event_fault_isolation (fun _ => Except.error "reviews down")
    (fun _ => Except.error "files down") gfHit prOk 1 none [] rfl
    (by omega) rfl rfl
  exact h.1.trans rfl

/-! ### C9: the URL parser lemma stack -/

namespace GitHubURLParser

theorem takeWhile_all_eq (p : Char → Bool) :
    ∀ l : List Char, (∀ c ∈ l, p c = true) → l.takeWhile p = l
  | [], _ => rfl
  | a :: l, h => by
    rw [List.takeWhile_cons, if_pos (h a (List.mem_cons_self a l)),
      takeWhile_all_eq p l (fun c hc => h c (List.mem_cons_of_mem a hc))]

theorem takeWhile_append_stop (p : Char → Bool) (xs : List Char) (y : Char)
    (ys : List Char) (hall : ∀ c ∈ xs, p c = true) (hy : p y = false) :
    (xs ++ y :: ys).takeWhile p = xs := by
  induction xs with
  | nil => simp [List.takeWhile_cons, hy]
  | cons a l ih =>
    rw [List.cons_append, List.takeWhile_cons,
      if_pos (hall a (List.mem_cons_self a l)),
      ih (fun c hc => hall c (List.mem_cons_of_mem a hc))]

theorem dropWhile_all_neg (p : Char → Bool) :
    ∀ l : List Char, (∀ c ∈ l, p c = false) → l.dropWhile p = l
  | [], _ => rfl
  | a :: l, h => by
    rw [List.dropWhile_cons, if_neg (by simp [h a (List.mem_cons_self a l)])]

theorem pyStrip_eq_self (l : List Char) (h : ∀ c ∈ l, isPySpace c = false) :
    pyStrip l = l := by
  unfold pyStrip
  rw [dropWhile_all_neg _ l h,
    dropWhile_all_neg _ l.reverse (fun c hc => h c (List.mem_reverse.mp hc)),
    List.reverse_reverse]

theorem ownerChar_noSlash {c : Char} (h : isOwnerChar c = true) :
    noSlash c = true := by
  simp only [noSlash, decide_eq_true_eq]
  intro he
  subst he
  exact absurd h (by decide)

theorem repoChar_noSlash {c : Char} (h : isRepoChar c = true) :
    noSlash c = true := by
  simp only [noSlash, decide_eq_true_eq]
  intro he
  subst he
  exact absurd h (by decide)

theorem digit_noSlash {c : Char} (h : Char.isDigit c = true) :
    noSlash c = true := by
  simp only [noSlash, decide_eq_true_eq]
  intro he
  subst he
  exact absurd h (by decide)

theorem pySpace_not_ownerChar {c : Char} (h : isOwnerChar c = true) :
    isPySpace c = false := by
  cases hs : isPySpace c with
  | false => rfl
  | true =>
    exfalso
    have hc : c ∈ pySpaceChars := of_decide_eq_true hs
    have hno : ∀ d ∈ pySpaceChars, isOwnerChar d = false := by decide
    rw [hno c hc] at h
    exact Bool.noConfusion h

theorem pySpace_not_repoChar {c : Char} (h : isRepoChar c = true) :
    isPySpace c = false := by
  cases hs : isPySpace c with
  | false => rfl
  | true =>
    exfalso
    have hc : c ∈ pySpaceChars := of_decide_eq_true hs
    have hno : ∀ d ∈ pySpaceChars, isRepoChar d = false := by decide
    rw [hno c hc] at h
    exact Bool.noConfusion h

theorem pySpace_not_digit {c : Char} (h : Char.isDigit c = true) :
    isPySpace c = false := by
  cases hs : isPySpace c with
  | false => rfl
  | true =>
    exfalso
    have hc : c ∈ pySpaceChars := of_decide_eq_true hs
    have hno : ∀ d ∈ pySpaceChars, Char.isDigit d = false := by decide
    rw [hno c hc] at h
    exact Bool.noConfusion h

theorem dropPfx_append (pfx rest : List Char) :
    dropPfx pfx (pfx ++ rest) = some rest := by
  simp [dropPfx, List.drop_left]

theorem slash_split_inj (x y w z : List Char)
    (hx : ∀ c ∈ x, noSlash c = true) (hw : ∀ c ∈ w, noSlash c = true)
    (h : x ++ '/' :: y = w ++ '/' :: z) : x = w ∧ y = z := by
  have hx' : (x ++ '/' :: y).takeWhile noSlash = x :=
    takeWhile_append_stop _ x _ y hx (by decide)
  have hw' : (w ++ '/' :: z).takeWhile noSlash = w :=
    takeWhile_append_stop _ w _ z hw (by decide)
  have hxw : x = w := by rw [← hx', ← hw', h]
  subst hxw
  refine ⟨rfl, ?_⟩
  have := List.append_cancel_left h
  exact (List.cons.injEq _ _ _ _).mp this |>.2

theorem prefix_split (pfx o w : List Char) (h : pfx <+: o ++ '/' :: w) :
    pfx <+: o ∨ ∃ z, pfx = o ++ '/' :: z := by
  rcases h with ⟨t, ht⟩
  have htake : pfx = (o ++ '/' :: w).take pfx.length := by
    rw [← ht, List.take_left]
  by_cases hlen : pfx.length ≤ o.length
  · left
    rw [htake, List.take_append_eq_append_take, Nat.sub_eq_zero_of_le hlen,
      List.take_zero, List.append_nil]
    exact List.take_prefix _ o
  · right
    obtain ⟨m, hm⟩ : ∃ m, pfx.length - o.length = m + 1 := by
      refine ⟨pfx.length - o.length - 1, ?_⟩
      omega
    refine ⟨w.take m, ?_⟩
    rw [htake, List.take_append_eq_append_take, hm, List.take_succ_cons,
      List.take_of_length_le (by omega)]

theorem slashpfx_false_of_badchar (x y o w : List Char)
    (hx : ∀ c ∈ x, noSlash c = true) (ho : ∀ c ∈ o, isOwnerChar c = true)
    (hbad : ∃ c ∈ x, isOwnerChar c = false) :
    (x ++ '/' :: y).isPrefixOf (o ++ '/' :: w) = false := by
  cases hval : (x ++ '/' :: y).isPrefixOf (o ++ '/' :: w) with
  | false => rfl
  | true =>
    exfalso
    have hpre : (x ++ '/' :: y) <+: (o ++ '/' :: w) :=
      List.isPrefixOf_iff_prefix.mp hval
    rcases prefix_split _ _ _ hpre with hp | ⟨z, hz⟩
    · have hm : '/' ∈ o := hp.subset (by simp)
      exact absurd (ho '/' hm) (by decide)
    · obtain ⟨hxo, -⟩ := slash_split_inj x y o z hx
        (fun c hc => ownerChar_noSlash (ho c hc)) hz
      obtain ⟨c, hcx, hcbad⟩ := hbad
      rw [hxo] at hcx
      rw [ho c hcx] at hcbad
      exact absurd hcbad (by simp)

theorem noslashpfx_false_of_badchar (x o w : List Char)
    (hx : ∀ c ∈ x, noSlash c = true) (ho : ∀ c ∈ o, isOwnerChar c = true)
    (hbad : ∃ c ∈ x, isOwnerChar c = false) :
    x.isPrefixOf (o ++ '/' :: w) = false := by
  cases hval : x.isPrefixOf (o ++ '/' :: w) with
  | false => rfl
  | true =>
    exfalso
    have hpre : x <+: (o ++ '/' :: w) := List.isPrefixOf_iff_prefix.mp hval
    rcases prefix_split _ _ _ hpre with hp | ⟨z, hz⟩
    · obtain ⟨c, hcx, hcbad⟩ := hbad
      rw [ho c (hp.subset hcx)] at hcbad
      exact absurd hcbad (by simp)
    · have hsl : '/' ∈ x := by rw [hz]; simp
      exact absurd (hx '/' hsl) (by decide)

theorem slashpfx_false_of_noslash (x y w : List Char)
    (hw : ∀ c ∈ w, noSlash c = true) :
    (x ++ '/' :: y).isPrefixOf w = false := by
  cases hval : (x ++ '/' :: y).isPrefixOf w with
  | false => rfl
  | true =>
    exfalso
    have hsl : '/' ∈ w :=
      (List.isPrefixOf_iff_prefix.mp hval).subset (by simp)
    exact absurd (hw '/' hsl) (by decide)

theorem findSome?_range_first {β : Type} (f : Nat → Option β) (v : β) :
    ∀ (n m : Nat), m < n → (∀ i, i < m → f i = none) → f m = some v →
      (List.range n).findSome? f = some v := by
  intro n
  induction n with
  | zero => intro m hmn; omega
  | succ k ih =>
    intro m hmn hfail hm
    rw [List.range_succ, List.findSome?_append]
    by_cases hmk : m = k
    · subst hmk
      have hnone : (List.range m).findSome? f = none :=
        List.findSome?_eq_none_iff.mpr (fun i hi => hfail i (List.mem_range.mp hi))
      rw [hnone]
      simp [List.findSome?_cons, hm]
    · rw [ih m (by omega) hfail hm]
      rfl

theorem tailOK_noslash_false (w : List Char) (hne : w ≠ [])
    (hns : ∀ c ∈ w, noSlash c = true) (hgit : w ≠ ['.', 'g', 'i', 't']) :
    tailGitSlashEnd w = false := by
  have h1 : w ≠ ['/'] := by
    intro he
    subst he
    exact absurd (hns '/' (by simp)) (by decide)
  have h2 : w ≠ ['.', 'g', 'i', 't', '/'] := by
    intro he
    subst he
    exact absurd (hns '/' (by simp)) (by decide)
  simp [tailGitSlashEnd, hne, h1, h2, hgit]

theorem tailOK_concat_false (w z : List Char) (hw : w ≠ []) (hz : z ≠ [])
    (hns : ∀ c ∈ w, noSlash c = true) :
    tailGitSlashEnd (w ++ '/' :: z) = false := by
  have h0 : w ++ '/' :: z ≠ [] := by simp
  have h1 : w ++ '/' :: z ≠ ['/'] := by
    intro he
    obtain ⟨hw', -⟩ := slash_split_inj w z [] [] hns (by simp) (by simpa using he)
    exact hw hw'
  have h2 : w ++ '/' :: z ≠ ['.', 'g', 'i', 't'] := by
    intro he
    have hm : '/' ∈ w ++ '/' :: z := by simp
    rw [he] at hm
    simp at hm
  have h3 : w ++ '/' :: z ≠ ['.', 'g', 'i', 't', '/'] := by
    intro he
    have he' : w ++ '/' :: z = ['.', 'g', 'i', 't'] ++ '/' :: [] := by simpa using he
    obtain ⟨-, hz'⟩ := slash_split_inj w z ['.', 'g', 'i', 't'] [] hns (by decide) he'
    exact hz hz'
  simp [tailGitSlashEnd, h0, h1, h2, h3]

theorem prPart_nil : prPart [] = some none := rfl

theorem prPart_none_of (l : List Char)
    (hp : (['p', 'u', 'l', 'l', '/'] : List Char).isPrefixOf l = false)
    (ht : tailGitSlashEnd l = false) : prPart l = none := by
  simp [prPart, hp, ht]

theorem prPart_slash_cons (z : List Char) (hz : z ≠ []) :
    prPart ('/' :: z) = none := by
  apply prPart_none_of
  · simp [List.isPrefixOf]
  · simp [tailGitSlashEnd, hz]

theorem prPart_head_ne (c : Char) (l : List Char) (h1 : c ≠ 'p') (h2 : c ≠ '.')
    (h3 : c ≠ '/') : prPart (c :: l) = none := by
  apply prPart_none_of
  · cases hval : (['p', 'u', 'l', 'l', '/'] : List Char).isPrefixOf (c :: l) with
    | false => rfl
    | true =>
      exfalso
      simp [List.isPrefixOf, beq_iff_eq] at hval
      exact h1 hval.1.symm
  · simp [tailGitSlashEnd, h2, h3]

theorem prPart_pull_digits (ds : List Char) (hds : ds ≠ [])
    (hdig : ∀ c ∈ ds, Char.isDigit c = true) :
    prPart ('p' :: 'u' :: 'l' :: 'l' :: '/' :: ds) = some (some (digitsToNat ds)) := by
  have hpre : (['p', 'u', 'l', 'l', '/'] : List Char).isPrefixOf
      ('p' :: 'u' :: 'l' :: 'l' :: '/' :: ds) = true := by
    simp [List.isPrefixOf]
  obtain ⟨m, hm⟩ : ∃ m, ds.length = m + 1 := by
    cases ds with
    | nil => exact absurd rfl hds
    | cons a l => exact ⟨l.length, rfl⟩
  have hgc : greedyCapture Char.isDigit ds
      (fun after => if tailGitSlashEnd after then some () else none) = some (ds, ()) := by
    unfold greedyCapture
    rw [takeWhile_all_eq _ ds hdig, hm, List.range_succ, List.reverse_append]
    simp only [List.reverse_cons, List.reverse_nil, List.nil_append,
      List.singleton_append]
    rw [List.findSome?_cons]
    have hd : ds.drop (m + 1) = [] := by rw [← hm]; exact List.drop_length ds
    have ht : ds.take (m + 1) = ds := by rw [← hm]; exact List.take_length ds
    simp [hd, ht, tailGitSlashEnd]
  unfold prPart
  rw [if_pos hpre]
  have hdrop : ('p' :: 'u' :: 'l' :: 'l' :: '/' :: ds).drop 5 = ds := rfl
  rw [hdrop, hgc]

theorem slashpfx_false_of_ne (x y w z : List Char)
    (hx : ∀ c ∈ x, noSlash c = true) (hw : ∀ c ∈ w, noSlash c = true)
    (hne : w ≠ x) :
    (x ++ '/' :: y).isPrefixOf (w ++ '/' :: z) = false := by
  cases hval : (x ++ '/' :: y).isPrefixOf (w ++ '/' :: z) with
  | false => rfl
  | true =>
    exfalso
    have hpre : (x ++ '/' :: y) <+: (w ++ '/' :: z) :=
      List.isPrefixOf_iff_prefix.mp hval
    rcases prefix_split _ _ _ hpre with hp | ⟨z', hz'⟩
    · have hm : '/' ∈ w := hp.subset (by simp)
      exact absurd (hw '/' hm) (by decide)
    · obtain ⟨hxw, -⟩ := slash_split_inj x y w z' hx hw hz'
      exact hne hxw.symm

theorem branchPart_nil : branchPart [] = some (none, none) := rfl

theorem branchPart_tree_direct (b : List Char) (hb : b ≠ [])
    (hbns : ∀ c ∈ b, noSlash c = true) :
    branchPart ('t' :: 'r' :: 'e' :: 'e' :: '/' :: b) = some (some b, none) := by
  have hpre : (['t', 'r', 'e', 'e', '/'] : List Char).isPrefixOf
      ('t' :: 'r' :: 'e' :: 'e' :: '/' :: b) = true := by
    simp [List.isPrefixOf]
  obtain ⟨m, hm⟩ : ∃ m, b.length = m + 1 := by
    cases b with
    | nil => exact absurd rfl hb
    | cons a l => exact ⟨l.length, rfl⟩
  have hgc : greedyCapture noSlash b prPart = some (b, none) := by
    unfold greedyCapture
    rw [takeWhile_all_eq _ b hbns, hm, List.range_succ, List.reverse_append]
    simp only [List.reverse_cons, List.reverse_nil, List.nil_append,
      List.singleton_append]
    have hd : b.drop (m + 1) = [] := by rw [← hm]; exact List.drop_length b
    have ht : b.take (m + 1) = b := by rw [← hm]; exact List.take_length b
    rw [List.findSome?_cons_of_isSome]
    · simp [hd, ht, prPart_nil]
    · simp [hd, prPart_nil]
  unfold branchPart
  rw [if_pos hpre]
  have hdrop : ('t' :: 'r' :: 'e' :: 'e' :: '/' :: b).drop 5 = b := rfl
  rw [hdrop, hgc]

theorem branchPart_pull_direct (ds : List Char) (hds : ds ≠ [])
    (hdig : ∀ c ∈ ds, Char.isDigit c = true) :
    branchPart ('p' :: 'u' :: 'l' :: 'l' :: '/' :: ds) =
      some (none, some (digitsToNat ds)) := by
  have h1 : (['t', 'r', 'e', 'e', '/'] : List Char).isPrefixOf
      ('p' :: 'u' :: 'l' :: 'l' :: '/' :: ds) = false := by
    simp [List.isPrefixOf]
  have h2 : (['b', 'l', 'o', 'b', '/'] : List Char).isPrefixOf
      ('p' :: 'u' :: 'l' :: 'l' :: '/' :: ds) = false := by
    simp [List.isPrefixOf]
  unfold branchPart
  rw [if_neg (by simp [h1]), if_neg (by simp [h2]),
    prPart_pull_digits ds hds hdig]
  rfl

theorem greedy_tree_run_fail (b : List Char) (hb : b ≠ []) :
    greedyCapture noSlash ('t' :: 'r' :: 'e' :: 'e' :: '/' :: b) prPart = none := by
  unfold greedyCapture
  have hrun : List.takeWhile noSlash ('t' :: 'r' :: 'e' :: 'e' :: '/' :: b) =
      ['t', 'r', 'e', 'e'] := by
    have := takeWhile_append_stop noSlash ['t', 'r', 'e', 'e'] '/' b
      (by decide) (by decide)
    simpa using this
  rw [hrun]
  rw [show (List.range (['t', 'r', 'e', 'e'] : List Char).length).reverse =
    [3, 2, 1, 0] from by rfl]
  simp only [List.findSome?_cons, List.findSome?_nil, List.drop_succ_cons,
    List.drop_zero, prPart_slash_cons b hb,
    prPart_head_ne 'e' ('/' :: b) (by decide) (by decide) (by decide),
    prPart_head_ne 'e' ('e' :: '/' :: b) (by decide) (by decide) (by decide),
    prPart_head_ne 'r' ('e' :: 'e' :: '/' :: b) (by decide) (by decide) (by decide),
    Option.map_none']

theorem greedy_pull_run_fail (ds : List Char) (hds : ds ≠ []) :
    greedyCapture noSlash ('p' :: 'u' :: 'l' :: 'l' :: '/' :: ds) prPart = none := by
  unfold greedyCapture
  have hrun : List.takeWhile noSlash ('p' :: 'u' :: 'l' :: 'l' :: '/' :: ds) =
      ['p', 'u', 'l', 'l'] := by
    have := takeWhile_append_stop noSlash ['p', 'u', 'l', 'l'] '/' ds
      (by decide) (by decide)
    simpa using this
  rw [hrun]
  rw [show (List.range (['p', 'u', 'l', 'l'] : List Char).length).reverse =
    [3, 2, 1, 0] from by rfl]
  simp only [List.findSome?_cons, List.findSome?_nil, List.drop_succ_cons,
    List.drop_zero, prPart_slash_cons ds hds,
    prPart_head_ne 'l' ('/' :: ds) (by decide) (by decide) (by decide),
    prPart_head_ne 'l' ('l' :: '/' :: ds) (by decide) (by decide) (by decide),
    prPart_head_ne 'u' ('l' :: 'l' :: '/' :: ds) (by decide) (by decide) (by decide),
    Option.map_none']

theorem greedy_digits_nondigit_head (c : Char) (rest : List Char)
    (hc : Char.isDigit c = false) :
    greedyCapture Char.isDigit (c :: rest)
      (fun after => if tailGitSlashEnd after then some () else none) = none := by
  unfold greedyCapture
  rw [List.takeWhile_cons, if_neg (by simp [hc])]
  rfl

theorem bool_ne_true {b : Bool} (h : b = false) : ¬ b = true := by simp [h]

theorem branchPart_fail_tree (w b : List Char) (hw : w ≠ [])
    (hwns : ∀ c ∈ w, noSlash c = true) (hb : b ≠ [])
    (hbns : ∀ c ∈ b, noSlash c = true) :
    branchPart (w ++ '/' :: 't' :: 'r' :: 'e' :: 'e' :: '/' :: b) = none := by
  by_cases hw1 : w = ['t', 'r', 'e', 'e']
  · subst hw1
    show branchPart
      ('t' :: 'r' :: 'e' :: 'e' :: '/' :: 't' :: 'r' :: 'e' :: 'e' :: '/' :: b) = none
    unfold branchPart
    rw [if_pos (by simp [List.isPrefixOf])]
    rw [show ('t' :: 'r' :: 'e' :: 'e' :: '/' :: 't' :: 'r' :: 'e' :: 'e' :: '/' :: b).drop 5 =
      't' :: 'r' :: 'e' :: 'e' :: '/' :: b from rfl]
    rw [greedy_tree_run_fail b hb,
      prPart_head_ne 't' _ (by decide) (by decide) (by decide)]
    rfl
  by_cases hw2 : w = ['b', 'l', 'o', 'b']
  · subst hw2
    show branchPart
      ('b' :: 'l' :: 'o' :: 'b' :: '/' :: 't' :: 'r' :: 'e' :: 'e' :: '/' :: b) = none
    unfold branchPart
    rw [if_neg (by simp [List.isPrefixOf]), if_pos (by simp [List.isPrefixOf])]
    rw [show ('b' :: 'l' :: 'o' :: 'b' :: '/' :: 't' :: 'r' :: 'e' :: 'e' :: '/' :: b).drop 5 =
      't' :: 'r' :: 'e' :: 'e' :: '/' :: b from rfl]
    rw [greedy_tree_run_fail b hb,
      prPart_head_ne 'b' _ (by decide) (by decide) (by decide)]
    rfl
  by_cases hw3 : w = ['p', 'u', 'l', 'l']
  · subst hw3
    show branchPart
      ('p' :: 'u' :: 'l' :: 'l' :: '/' :: 't' :: 'r' :: 'e' :: 'e' :: '/' :: b) = none
    unfold branchPart
    rw [if_neg (by simp [List.isPrefixOf]), if_neg (by simp [List.isPrefixOf])]
    have hpr : prPart
        ('p' :: 'u' :: 'l' :: 'l' :: '/' :: 't' :: 'r' :: 'e' :: 'e' :: '/' :: b) = none := by
      unfold prPart
      rw [if_pos (by simp [List.isPrefixOf])]
      rw [show ('p' :: 'u' :: 'l' :: 'l' :: '/' :: 't' :: 'r' :: 'e' :: 'e' :: '/' :: b).drop 5 =
        't' :: 'r' :: 'e' :: 'e' :: '/' :: b from rfl]
      rw [greedy_digits_nondigit_head 't' _ (by decide)]
      simp [tailGitSlashEnd]
    rw [hpr]
    rfl
  · unfold branchPart
    have h1 : (['t', 'r', 'e', 'e', '/'] : List Char).isPrefixOf
        (w ++ '/' :: 't' :: 'r' :: 'e' :: 'e' :: '/' :: b) = false :=
      slashpfx_false_of_ne ['t', 'r', 'e', 'e'] [] w _ (by decide) hwns hw1
    have h2 : (['b', 'l', 'o', 'b', '/'] : List Char).isPrefixOf
        (w ++ '/' :: 't' :: 'r' :: 'e' :: 'e' :: '/' :: b) = false :=
      slashpfx_false_of_ne ['b', 'l', 'o', 'b'] [] w _ (by decide) hwns hw2
    have h3 : (['p', 'u', 'l', 'l', '/'] : List Char).isPrefixOf
        (w ++ '/' :: 't' :: 'r' :: 'e' :: 'e' :: '/' :: b) = false :=
      slashpfx_false_of_ne ['p', 'u', 'l', 'l'] [] w _ (by decide) hwns hw3
    rw [if_neg (bool_ne_true h1), if_neg (bool_ne_true h2),
      prPart_none_of _ h3 (tailOK_concat_false w _ hw (by simp) hwns)]
    rfl

theorem branchPart_fail_pull (w ds : List Char) (hw : w ≠ [])
    (hwns : ∀ c ∈ w, noSlash c = true) (hds : ds ≠ [])
    (hdig : ∀ c ∈ ds, Char.isDigit c = true) :
    branchPart (w ++ '/' :: 'p' :: 'u' :: 'l' :: 'l' :: '/' :: ds) = none := by
  by_cases hw1 : w = ['t', 'r', 'e', 'e']
  · subst hw1
    show branchPart
      ('t' :: 'r' :: 'e' :: 'e' :: '/' :: 'p' :: 'u' :: 'l' :: 'l' :: '/' :: ds) = none
    unfold branchPart
    rw [if_pos (by simp [List.isPrefixOf])]
    rw [show ('t' :: 'r' :: 'e' :: 'e' :: '/' :: 'p' :: 'u' :: 'l' :: 'l' :: '/' :: ds).drop 5 =
      'p' :: 'u' :: 'l' :: 'l' :: '/' :: ds from rfl]
    rw [greedy_pull_run_fail ds hds,
      prPart_head_ne 't' _ (by decide) (by decide) (by decide)]
    rfl
  by_cases hw2 : w = ['b', 'l', 'o', 'b']
  · subst hw2
    show branchPart
      ('b' :: 'l' :: 'o' :: 'b' :: '/' :: 'p' :: 'u' :: 'l' :: 'l' :: '/' :: ds) = none
    unfold branchPart
    rw [if_neg (by simp [List.isPrefixOf]), if_pos (by simp [List.isPrefixOf])]
    rw [show ('b' :: 'l' :: 'o' :: 'b' :: '/' :: 'p' :: 'u' :: 'l' :: 'l' :: '/' :: ds).drop 5 =
      'p' :: 'u' :: 'l' :: 'l' :: '/' :: ds from rfl]
    rw [greedy_pull_run_fail ds hds,
      prPart_head_ne 'b' _ (by decide) (by decide) (by decide)]
    rfl
  by_cases hw3 : w = ['p', 'u', 'l', 'l']
  · subst hw3
    show branchPart
      ('p' :: 'u' :: 'l' :: 'l' :: '/' :: 'p' :: 'u' :: 'l' :: 'l' :: '/' :: ds) = none
    unfold branchPart
    rw [if_neg (by simp [List.isPrefixOf]), if_neg (by simp [List.isPrefixOf])]
    have hpr : prPart
        ('p' :: 'u' :: 'l' :: 'l' :: '/' :: 'p' :: 'u' :: 'l' :: 'l' :: '/' :: ds) = none := by
      unfold prPart
      rw [if_pos (by simp [List.isPrefixOf])]
      rw [show ('p' :: 'u' :: 'l' :: 'l' :: '/' :: 'p' :: 'u' :: 'l' :: 'l' :: '/' :: ds).drop 5 =
        'p' :: 'u' :: 'l' :: 'l' :: '/' :: ds from rfl]
      rw [greedy_digits_nondigit_head 'p' _ (by decide)]
      simp [tailGitSlashEnd]
    rw [hpr]
    rfl
  · unfold branchPart
    have h1 : (['t', 'r', 'e', 'e', '/'] : List Char).isPrefixOf
        (w ++ '/' :: 'p' :: 'u' :: 'l' :: 'l' :: '/' :: ds) = false :=
      slashpfx_false_of_ne ['t', 'r', 'e', 'e'] [] w _ (by decide) hwns hw1
    have h2 : (['b', 'l', 'o', 'b', '/'] : List Char).isPrefixOf
        (w ++ '/' :: 'p' :: 'u' :: 'l' :: 'l' :: '/' :: ds) = false :=
      slashpfx_false_of_ne ['b', 'l', 'o', 'b'] [] w _ (by decide) hwns hw2
    have h3 : (['p', 'u', 'l', 'l', '/'] : List Char).isPrefixOf
        (w ++ '/' :: 'p' :: 'u' :: 'l' :: 'l' :: '/' :: ds) = false :=
      slashpfx_false_of_ne ['p', 'u', 'l', 'l'] [] w _ (by decide) hwns hw3
    rw [if_neg (bool_ne_true h1), if_neg (bool_ne_true h2),
      prPart_none_of _ h3 (tailOK_concat_false w _ hw (by simp) hwns)]
    rfl

theorem branchPart_noslash_fail (w : List Char) (hne : w ≠ [])
    (hns : ∀ c ∈ w, noSlash c = true) (hgit : w ≠ ['.', 'g', 'i', 't']) :
    branchPart w = none := by
  unfold branchPart
  have h1 : (['t', 'r', 'e', 'e', '/'] : List Char).isPrefixOf w = false :=
    slashpfx_false_of_noslash ['t', 'r', 'e', 'e'] [] w hns
  have h2 : (['b', 'l', 'o', 'b', '/'] : List Char).isPrefixOf w = false :=
    slashpfx_false_of_noslash ['b', 'l', 'o', 'b'] [] w hns
  have h3 : (['p', 'u', 'l', 'l', '/'] : List Char).isPrefixOf w = false :=
    slashpfx_false_of_noslash ['p', 'u', 'l', 'l'] [] w hns
  rw [if_neg (bool_ne_true h1), if_neg (bool_ne_true h2),
    prPart_none_of w h3 (tailOK_noslash_false w hne hns hgit)]
  rfl

theorem afterRepo_ne_slash (l : List Char) (h : l.head? ≠ some '/') :
    afterRepo l = branchPart l := by
  unfold afterRepo
  rw [if_neg h]

theorem afterRepo_slash (z : List Char) :
    afterRepo ('/' :: z) = (branchPart z).or (branchPart ('/' :: z)) := by
  unfold afterRepo
  rw [if_pos (show ('/' :: z).head? = some '/' from rfl)]
  rfl

theorem afterRepo_nil : afterRepo [] = some (none, none) := rfl

theorem afterRepo_concat_eq_branchPart (w z : List Char) (hwne : w ≠ [])
    (hwns : ∀ c ∈ w, noSlash c = true) :
    afterRepo (w ++ '/' :: z) = branchPart (w ++ '/' :: z) := by
  apply afterRepo_ne_slash
  cases w with
  | nil => exact absurd rfl hwne
  | cons c w2 =>
    rw [List.cons_append, List.head?_cons]
    intro hcon
    have hc : c = '/' := by injection hcon
    subst hc
    exact absurd (hwns '/' (by simp)) (by decide)

theorem drop_concat_of_lt (r : List Char) (z : List Char) (k : Nat)
    (hk : k ≤ r.length) : (r ++ z).drop k = r.drop k ++ z := by
  rw [List.drop_append_eq_append_drop, Nat.sub_eq_zero_of_le hk, List.drop_zero]

theorem repoTail_plain (r : List Char) (hr : r ≠ [])
    (hrns : ∀ c ∈ r, noSlash c = true)
    (hgit : ¬∃ p, p ≠ [] ∧ r = p ++ ['.', 'g', 'i', 't']) :
    repoTail r = some (r, none, none) := by
  obtain ⟨m, hm⟩ : ∃ m, r.length = m + 1 := by
    cases r with
    | nil => exact absurd rfl hr
    | cons a l => exact ⟨l.length, rfl⟩
  unfold repoTail lazyCapture
  rw [takeWhile_all_eq _ r hrns, hm]
  rw [findSome?_range_first _ (r, (none, none)) (m + 1) m (by omega) ?fail ?succ]
  · rfl
  case fail =>
    intro i hi
    have hik : i + 1 < r.length := by omega
    have hwne : r.drop (i + 1) ≠ [] := by
      rw [Ne, List.drop_eq_nil_iff]
      omega
    have hwns : ∀ c ∈ r.drop (i + 1), noSlash c = true :=
      fun c hc => hrns c (List.mem_of_mem_drop hc)
    have hwgit : r.drop (i + 1) ≠ ['.', 'g', 'i', 't'] := by
      intro he
      apply hgit
      refine ⟨r.take (i + 1), ?_, ?_⟩
      · rw [Ne, List.take_eq_nil_iff]
        simp [hr]
      · rw [← he, List.take_append_drop]
    rw [afterRepo_ne_slash _ ?hd, branchPart_noslash_fail _ hwne hwns hwgit]
    · rfl
    case hd =>
      intro hcon
      have : '/' ∈ r.drop (i + 1) := List.mem_of_mem_head? (by rw [hcon]; simp)
      exact absurd (hwns '/' this) (by decide)
  case succ =>
    have hd : r.drop (m + 1) = [] := by rw [← hm]; exact List.drop_length r
    have ht : r.take (m + 1) = r := by rw [← hm]; exact List.take_length r
    rw [hd, afterRepo_nil]
    simp [ht]

theorem repoTail_tree (r b : List Char) (hr : r ≠ [])
    (hrns : ∀ c ∈ r, noSlash c = true) (hb : b ≠ [])
    (hbns : ∀ c ∈ b, noSlash c = true) :
    repoTail (r ++ '/' :: 't' :: 'r' :: 'e' :: 'e' :: '/' :: b) =
      some (r, some b, none) := by
  obtain ⟨m, hm⟩ : ∃ m, r.length = m + 1 := by
    cases r with
    | nil => exact absurd rfl hr
    | cons a l => exact ⟨l.length, rfl⟩
  unfold repoTail lazyCapture
  rw [takeWhile_append_stop _ r _ _ hrns (by decide), hm]
  rw [findSome?_range_first _ (r, (some b, none)) (m + 1) m (by omega) ?fail ?succ]
  · rfl
  case fail =>
    intro i hi
    have hik : i + 1 < r.length := by omega
    rw [drop_concat_of_lt r _ (i + 1) (by omega)]
    have hwne : r.drop (i + 1) ≠ [] := by
      rw [Ne, List.drop_eq_nil_iff]
      omega
    have hwns : ∀ c ∈ r.drop (i + 1), noSlash c = true :=
      fun c hc => hrns c (List.mem_of_mem_drop hc)
    rw [afterRepo_concat_eq_branchPart _ _ hwne hwns,
      branchPart_fail_tree _ b hwne hwns hb hbns]
    rfl
  case succ =>
    have hd : r.drop (m + 1) = [] := by rw [← hm]; exact List.drop_length r
    rw [drop_concat_of_lt r _ (m + 1) (by omega), hd, List.nil_append,
      afterRepo_slash, branchPart_tree_direct b hb hbns]
    rw [List.take_left' (by omega)]
    rfl

theorem repoTail_pull (r ds : List Char) (hr : r ≠ [])
    (hrns : ∀ c ∈ r, noSlash c = true) (hds : ds ≠ [])
    (hdig : ∀ c ∈ ds, Char.isDigit c = true) :
    repoTail (r ++ '/' :: 'p' :: 'u' :: 'l' :: 'l' :: '/' :: ds) =
      some (r, none, some (digitsToNat ds)) := by
  obtain ⟨m, hm⟩ : ∃ m, r.length = m + 1 := by
    cases r with
    | nil => exact absurd rfl hr
    | cons a l => exact ⟨l.length, rfl⟩
  unfold repoTail lazyCapture
  rw [takeWhile_append_stop _ r _ _ hrns (by decide), hm]
  rw [findSome?_range_first _ (r, (none, some (digitsToNat ds))) (m + 1) m
    (by omega) ?fail ?succ]
  · rfl
  case fail =>
    intro i hi
    have hik : i + 1 < r.length := by omega
    rw [drop_concat_of_lt r _ (i + 1) (by omega)]
    have hwne : r.drop (i + 1) ≠ [] := by
      rw [Ne, List.drop_eq_nil_iff]
      omega
    have hwns : ∀ c ∈ r.drop (i + 1), noSlash c = true :=
      fun c hc => hrns c (List.mem_of_mem_drop hc)
    rw [afterRepo_concat_eq_branchPart _ _ hwne hwns,
      branchPart_fail_pull _ ds hwne hwns hds hdig]
    rfl
  case succ =>
    have hd : r.drop (m + 1) = [] := by rw [← hm]; exact List.drop_length r
    rw [drop_concat_of_lt r _ (m + 1) (by omega), hd, List.nil_append,
      afterRepo_slash, branchPart_pull_direct ds hds hdig]
    rw [List.take_left' (by omega)]
    rfl

theorem not_gitsuffix_of_bool (r : List Char)
    (h : ¬(gitList.isSuffixOf r = true ∧ 4 < r.length)) :
    ¬∃ p, p ≠ [] ∧ r = p ++ ['.', 'g', 'i', 't'] := by
  rintro ⟨p, hp, rfl⟩
  apply h
  constructor
  · simp [gitList, List.isSuffixOf_iff_suffix]
  · have h1 : 0 < p.length := List.length_pos.mpr hp
    simp only [List.length_append]
    simp
    omega

theorem isEmpty_false_of_ne_nil {l : List Char} (h : l ≠ []) :
    l.isEmpty = false := by
  cases l with
  | nil => exact absurd rfl h
  | cons a t => rfl

theorem hostTail_eq (o t : List Char) (ho : o ≠ [])
    (hns : ∀ c ∈ o, noSlash c = true) :
    hostTail (o ++ '/' :: t) =
      (repoTail t).map (fun (r, b, pr) => (o, r, b, pr)) := by
  unfold hostTail
  rw [takeWhile_append_stop _ o _ t hns (by decide),
    if_neg (by simp [isEmpty_false_of_ne_nil ho]), List.drop_left,
    if_pos (show ('/' :: t).head? = some '/' from rfl)]
  rfl

theorem sshTail_git (o r : List Char) (ho : o ≠ [])
    (hons : ∀ c ∈ o, noSlash c = true) (hr : r ≠ [])
    (hrns : ∀ c ∈ r, noSlash c = true) :
    sshTail (o ++ '/' :: (r ++ ['.', 'g', 'i', 't'])) = some (o, r) := by
  unfold sshTail
  rw [takeWhile_append_stop _ o _ _ hons (by decide),
    if_neg (by simp [isEmpty_false_of_ne_nil ho]), List.drop_left,
    if_pos (show ('/' :: (r ++ ['.', 'g', 'i', 't'])).head? = some '/' from rfl),
    show ('/' :: (r ++ ['.', 'g', 'i', 't'])).tail = r ++ ['.', 'g', 'i', 't'] from rfl]
  obtain ⟨m, hm⟩ : ∃ m, r.length = m + 1 := by
    cases r with
    | nil => exact absurd rfl hr
    | cons a l => exact ⟨l.length, rfl⟩
  have hall : ∀ c ∈ r ++ ['.', 'g', 'i', 't'], noSlash c = true := by
    intro c hc
    rcases List.mem_append.mp hc with hc | hc
    · exact hrns c hc
    · simp at hc
      rcases hc with rfl | rfl | rfl | rfl <;> decide
  unfold lazyCapture
  rw [takeWhile_all_eq _ _ hall]
  rw [show (r ++ ['.', 'g', 'i', 't']).length = m + 5 from by
    simp [List.length_append]; omega]
  rw [findSome?_range_first _ (r, ()) (m + 5) m (by omega) ?fail ?succ]
  · rfl
  case fail =>
    intro i hi
    rw [drop_concat_of_lt r _ (i + 1) (by omega)]
    have hwne : r.drop (i + 1) ≠ [] := by
      rw [Ne, List.drop_eq_nil_iff]
      omega
    have hlen : (r.drop (i + 1) ++ ['.', 'g', 'i', 't']).length ≠ 4 := by
      have : 0 < (r.drop (i + 1)).length := List.length_pos.mpr hwne
      simp only [List.length_append]
      simp
      omega
    have hok : tailGitSlashEnd (r.drop (i + 1) ++ ['.', 'g', 'i', 't']) = false := by
      apply tailOK_noslash_false
      · simp [hwne]
      · intro c hc
        rcases List.mem_append.mp hc with hc | hc
        · exact hrns c (List.mem_of_mem_drop hc)
        · simp at hc
          rcases hc with rfl | rfl | rfl | rfl <;> decide
      · intro he
        rw [he] at hlen
        simp at hlen
    simp [hok]
  case succ =>
    rw [drop_concat_of_lt r _ (m + 1) (by omega),
      show r.drop (m + 1) = [] from by rw [← hm]; exact List.drop_length r,
      List.nil_append, List.take_left' (by omega)]
    rfl

theorem sshTail_nogit (o r : List Char) (ho : o ≠ [])
    (hons : ∀ c ∈ o, noSlash c = true) (hr : r ≠ [])
    (hrns : ∀ c ∈ r, noSlash c = true)
    (hgit : ¬∃ p, p ≠ [] ∧ r = p ++ ['.', 'g', 'i', 't']) :
    sshTail (o ++ '/' :: r) = some (o, r) := by
  unfold sshTail
  rw [takeWhile_append_stop _ o _ _ hons (by decide),
    if_neg (by simp [isEmpty_false_of_ne_nil ho]), List.drop_left,
    if_pos (show ('/' :: r).head? = some '/' from rfl),
    show ('/' :: r).tail = r from rfl]
  obtain ⟨m, hm⟩ : ∃ m, r.length = m + 1 := by
    cases r with
    | nil => exact absurd rfl hr
    | cons a l => exact ⟨l.length, rfl⟩
  unfold lazyCapture
  rw [takeWhile_all_eq _ _ hrns, hm]
  rw [findSome?_range_first _ (r, ()) (m + 1) m (by omega) ?fail ?succ]
  · rfl
  case fail =>
    intro i hi
    have hwne : r.drop (i + 1) ≠ [] := by
      rw [Ne, List.drop_eq_nil_iff]
      omega
    have hwgit : r.drop (i + 1) ≠ ['.', 'g', 'i', 't'] := by
      intro he
      apply hgit
      refine ⟨r.take (i + 1), ?_, ?_⟩
      · rw [Ne, List.take_eq_nil_iff]
        simp [hr]
      · rw [← he, List.take_append_drop]
    have hok : tailGitSlashEnd (r.drop (i + 1)) = false :=
      tailOK_noslash_false _ hwne
        (fun c hc => hrns c (List.mem_of_mem_drop hc)) hwgit
    simp [hok]
  case succ =>
    rw [show r.drop (m + 1) = [] from by rw [← hm]; exact List.drop_length r,
      show r.take (m + 1) = r from by rw [← hm]; exact List.take_length r]
    rfl

theorem httpsMatch_host (x : List Char) :
    httpsMatch ('h' :: 't' :: 't' :: 'p' :: 's' :: ':' :: '/' :: '/' :: 'g' :: 'i' ::
      't' :: 'h' :: 'u' :: 'b' :: '.' :: 'c' :: 'o' :: 'm' :: '/' :: x) =
      (hostTail x).map mkInfo := by
  simp [httpsMatch, dropPfx, List.isPrefixOf,
    show ("https://github.com/" : String).data = ['h', 't', 't', 'p', 's', ':',
      '/', '/', 'g', 'i', 't', 'h', 'u', 'b', '.', 'c', 'o', 'm', '/'] from rfl,
    show ("http://github.com/" : String).data = ['h', 't', 't', 'p', ':',
      '/', '/', 'g', 'i', 't', 'h', 'u', 'b', '.', 'c', 'o', 'm', '/'] from rfl]

theorem httpsMatch_g (rest : List Char) : httpsMatch ('g' :: rest) = none := by
  simp [httpsMatch, dropPfx, List.isPrefixOf,
    show ("https://github.com/" : String).data = ['h', 't', 't', 'p', 's', ':',
      '/', '/', 'g', 'i', 't', 'h', 'u', 'b', '.', 'c', 'o', 'm', '/'] from rfl,
    show ("http://github.com/" : String).data = ['h', 't', 't', 'p', ':',
      '/', '/', 'g', 'i', 't', 'h', 'u', 'b', '.', 'c', 'o', 'm', '/'] from rfl]

theorem bareMatch_host (x : List Char) :
    bareMatch ('g' :: 'i' :: 't' :: 'h' :: 'u' :: 'b' :: '.' :: 'c' :: 'o' :: 'm' ::
      '/' :: x) = (hostTail x).map mkInfo := by
  simp [bareMatch, dropPfx, List.isPrefixOf,
    show ("github.com/" : String).data =
      ['g', 'i', 't', 'h', 'u', 'b', '.', 'c', 'o', 'm', '/'] from rfl]

theorem bareMatch_at (rest : List Char) :
    bareMatch ('g' :: 'i' :: 't' :: '@' :: rest) = none := by
  simp [bareMatch, dropPfx, List.isPrefixOf,
    show ("github.com/" : String).data =
      ['g', 'i', 't', 'h', 'u', 'b', '.', 'c', 'o', 'm', '/'] from rfl]

theorem sshMatch_host (x : List Char) :
    sshMatch ('g' :: 'i' :: 't' :: '@' :: 'g' :: 'i' :: 't' :: 'h' :: 'u' :: 'b' ::
      '.' :: 'c' :: 'o' :: 'm' :: ':' :: x) =
      (sshTail x).map (fun (o, r) =>
        { owner := String.mk o, repo := String.mk r }) := by
  simp [sshMatch, dropPfx, List.isPrefixOf,
    show ("git@github.com:" : String).data =
      ['g', 'i', 't', '@', 'g', 'i', 't', 'h', 'u', 'b', '.', 'c', 'o', 'm', ':'] from rfl]

theorem httpsMatch_short_none (o w : List Char)
    (ho : ∀ c ∈ o, isOwnerChar c = true) :
    httpsMatch (o ++ '/' :: w) = none := by
  have hons : ∀ c ∈ o, noSlash c = true := fun c hc => ownerChar_noSlash (ho c hc)
  have h1 : (['h', 't', 't', 'p', 's', ':'] ++
      '/' :: ('/' :: 'g' :: 'i' :: 't' :: 'h' :: 'u' :: 'b' :: '.' :: 'c' :: 'o' ::
        'm' :: '/' :: [])).isPrefixOf (o ++ '/' :: w) = false :=
    slashpfx_false_of_badchar _ _ o w (by decide) ho ⟨':', by simp, by decide⟩
  have h2 : (['h', 't', 't', 'p', ':'] ++
      '/' :: ('/' :: 'g' :: 'i' :: 't' :: 'h' :: 'u' :: 'b' :: '.' :: 'c' :: 'o' ::
        'm' :: '/' :: [])).isPrefixOf (o ++ '/' :: w) = false :=
    slashpfx_false_of_badchar _ _ o w (by decide) ho ⟨':', by simp, by decide⟩
  unfold httpsMatch dropPfx
  rw [show ("https://github.com/" : String).data = ['h', 't', 't', 'p', 's', ':'] ++
      '/' :: ('/' :: 'g' :: 'i' :: 't' :: 'h' :: 'u' :: 'b' :: '.' :: 'c' :: 'o' ::
        'm' :: '/' :: []) from rfl,
    show ("http://github.com/" : String).data = ['h', 't', 't', 'p', ':'] ++
      '/' :: ('/' :: 'g' :: 'i' :: 't' :: 'h' :: 'u' :: 'b' :: '.' :: 'c' :: 'o' ::
        'm' :: '/' :: []) from rfl,
    if_neg (bool_ne_true h1), if_neg (bool_ne_true h2)]
  rfl

theorem bareMatch_short_none (o w : List Char)
    (ho : ∀ c ∈ o, isOwnerChar c = true) :
    bareMatch (o ++ '/' :: w) = none := by
  have h1 : (['g', 'i', 't', 'h', 'u', 'b', '.', 'c', 'o', 'm'] ++
      '/' :: []).isPrefixOf (o ++ '/' :: w) = false :=
    slashpfx_false_of_badchar _ _ o w (by decide) ho ⟨'.', by simp, by decide⟩
  unfold bareMatch dropPfx
  rw [show ("github.com/" : String).data =
      ['g', 'i', 't', 'h', 'u', 'b', '.', 'c', 'o', 'm'] ++ '/' :: [] from rfl,
    if_neg (bool_ne_true h1)]
  rfl

theorem sshMatch_short_none (o w : List Char)
    (ho : ∀ c ∈ o, isOwnerChar c = true) :
    sshMatch (o ++ '/' :: w) = none := by
  have h1 : (['g', 'i', 't', '@', 'g', 'i', 't', 'h', 'u', 'b', '.', 'c', 'o',
      'm', ':'] : List Char).isPrefixOf (o ++ '/' :: w) = false :=
    noslashpfx_false_of_badchar _ o w (by decide) ho ⟨'@', by simp, by decide⟩
  unfold sshMatch dropPfx
  rw [show ("git@github.com:" : String).data =
      ['g', 'i', 't', '@', 'g', 'i', 't', 'h', 'u', 'b', '.', 'c', 'o', 'm', ':']
      from rfl,
    if_neg (bool_ne_true h1)]
  rfl

theorem shortMatch_ok (o r : List Char) (ho : o ≠ [])
    (hoc : ∀ c ∈ o, isOwnerChar c = true) (hr : r ≠ [])
    (hrc : ∀ c ∈ r, isRepoChar c = true) :
    shortMatch (o ++ '/' :: r) = some (o, r) := by
  unfold shortMatch
  rw [takeWhile_append_stop _ o _ r hoc (by decide),
    if_neg (by simp [isEmpty_false_of_ne_nil ho]), List.drop_left,
    if_pos (show ('/' :: r).head? = some '/' from rfl),
    show ('/' :: r).tail = r from rfl,
    if_pos ⟨hr, List.all_eq_true.mpr hrc⟩]

theorem nospace_concat (pre x : List Char)
    (hpre : ∀ c ∈ pre, isPySpace c = false)
    (hx : ∀ c ∈ x, isPySpace c = false) :
    ∀ c ∈ pre ++ x, isPySpace c = false := by
  intro c hc
  rcases List.mem_append.mp hc with h | h
  · exact hpre c h
  · exact hx c h

theorem nospace_cons (a : Char) (l : List Char) (ha : isPySpace a = false)
    (hl : ∀ c ∈ l, isPySpace c = false) :
    ∀ c ∈ a :: l, isPySpace c = false := by
  intro c hc
  rcases List.mem_cons.mp hc with rfl | h
  · exact ha
  · exact hl c h

/-- C9: parsing never fails on any input (it is a total function into an
option), and on each of the four accepted reference shapes - full web URL
(optionally with a trailing tree/branch or pull/number segment), bare
host/owner/repo form, SSH form (with or without a trailing .git), and the
short owner/repo form - it recovers exactly the owner and repo written in
the input, recovering a branch only from a tree segment and a PR number
only from a pull segment; inputs fitting none of the shapes, such as the
empty string, a URL with no repo segment, or a foreign host, yield none. -/
theorem parse_accepted_shapes (o r b ds : String)
    (ho : validOwnerL o.data) (hrv : validRepoL r.data)
    (hbv : validBranchL b.data) (hdv : validDigitsL ds.data) :
    parse ("https://github.com/" ++ o ++ "/" ++ r) =
      some { owner := o, repo := r, pr_number := none, branch := none } ∧
    parse ("https://github.com/" ++ o ++ "/" ++ r ++ "/tree/" ++ b) =
      some { owner := o, repo := r, pr_number := none, branch := some b } ∧
    parse ("https://github.com/" ++ o ++ "/" ++ r ++ "/pull/" ++ ds) =
      some { owner := o, repo := r, pr_number := some (digitsToNat ds.data),
             branch := none } ∧
    parse ("github.com/" ++ o ++ "/" ++ r) =
      some { owner := o, repo := r, pr_number := none, branch := none } ∧
    parse ("git@github.com:" ++ o ++ "/" ++ r ++ ".git") =
      some { owner := o, repo := r, pr_number := none, branch := none } ∧
    parse ("git@github.com:" ++ o ++ "/" ++ r) =
      some { owner := o, repo := r, pr_number := none, branch := none } ∧
    parse (o ++ "/" ++ r) =
      some { owner := o, repo := r, pr_number := none, branch := none } ∧
    parse "" = none ∧
    parse "https://github.com/ownerandnorepo" = none ∧
    parse "https://gitlab.com/o/r" = none := by
  have honsl : ∀ c ∈ o.data, noSlash c = true :=
    fun c hc => ownerChar_noSlash (ho.2 c hc)
  have hrnsl : ∀ c ∈ r.data, noSlash c = true :=
    fun c hc => repoChar_noSlash (hrv.2.1 c hc)
  have hosp : ∀ c ∈ o.data, isPySpace c = false :=
    fun c hc => pySpace_not_ownerChar (ho.2 c hc)
  have hrsp : ∀ c ∈ r.data, isPySpace c = false :=
    fun c hc => pySpace_not_repoChar (hrv.2.1 c hc)
  have hbnsl : ∀ c ∈ b.data, noSlash c = true := fun c hc => (hbv.2 c hc).1
  have hbsp : ∀ c ∈ b.data, isPySpace c = false := fun c hc => (hbv.2 c hc).2
  have hdsp : ∀ c ∈ ds.data, isPySpace c = false :=
    fun c hc => pySpace_not_digit (hdv.2 c hc)
  have hgit2 : ¬∃ p, p ≠ [] ∧ r.data = p ++ ['.', 'g', 'i', 't'] :=
    not_gitsuffix_of_bool r.data hrv.2.2
  refine ⟨?_, ?_, ?_, ?_, ?_, ?_, ?_, ?_, ?_, ?_⟩
  · have hd1 : ("https://github.com/" ++ o ++ "/" ++ r).data =
        ("https://github.com/" : String).data ++ (o.data ++ '/' :: r.data) := by
      simp [String.data_append, show ("/" : String).data = ['/'] from rfl]
    have hsp1 : ∀ c ∈ ("https://github.com/" : String).data ++
        (o.data ++ '/' :: r.data), isPySpace c = false :=
      nospace_concat _ _ (by decide)
        (nospace_concat _ _ hosp (nospace_cons '/' _ (by decide) hrsp))
    have hc1 : ("https://github.com/" : String).data ++
        (o.data ++ '/' :: r.data) =
        'h' :: 't' :: 't' :: 'p' :: 's' :: ':' :: '/' :: '/' :: 'g' :: 'i' ::
        't' :: 'h' :: 'u' :: 'b' :: '.' :: 'c' :: 'o' :: 'm' :: '/' ::
        (o.data ++ '/' :: r.data) := rfl
    unfold parse
    rw [hd1, pyStrip_eq_self _ hsp1, hc1, httpsMatch_host,
      hostTail_eq o.data _ ho.1 honsl, repoTail_plain r.data hrv.1 hrnsl hgit2]
    rfl
  · have hd2 : ("https://github.com/" ++ o ++ "/" ++ r ++ "/tree/" ++ b).data =
        ("https://github.com/" : String).data ++ (o.data ++ '/' ::
          (r.data ++ '/' :: 't' :: 'r' :: 'e' :: 'e' :: '/' :: b.data)) := by
      simp [String.data_append, show ("/" : String).data = ['/'] from rfl,
        show ("/tree/" : String).data = ['/', 't', 'r', 'e', 'e', '/'] from rfl]
    have hsp2 : ∀ c ∈ ("https://github.com/" : String).data ++ (o.data ++ '/' ::
        (r.data ++ '/' :: 't' :: 'r' :: 'e' :: 'e' :: '/' :: b.data)),
        isPySpace c = false :=
      nospace_concat _ _ (by decide)
        (nospace_concat _ _ hosp (nospace_cons '/' _ (by decide)
          (nospace_concat _ _ hrsp (nospace_cons '/' _ (by decide)
            (nospace_cons 't' _ (by decide) (nospace_cons 'r' _ (by decide)
              (nospace_cons 'e' _ (by decide) (nospace_cons 'e' _ (by decide)
                (nospace_cons '/' _ (by decide) hbsp)))))))))
    have hc2 : ("https://github.com/" : String).data ++ (o.data ++ '/' ::
        (r.data ++ '/' :: 't' :: 'r' :: 'e' :: 'e' :: '/' :: b.data)) =
        'h' :: 't' :: 't' :: 'p' :: 's' :: ':' :: '/' :: '/' :: 'g' :: 'i' ::
        't' :: 'h' :: 'u' :: 'b' :: '.' :: 'c' :: 'o' :: 'm' :: '/' ::
        (o.data ++ '/' ::
          (r.data ++ '/' :: 't' :: 'r' :: 'e' :: 'e' :: '/' :: b.data)) := rfl
    unfold parse
    rw [hd2, pyStrip_eq_self _ hsp2, hc2, httpsMatch_host,
      hostTail_eq o.data _ ho.1 honsl,
      repoTail_tree r.data b.data hrv.1 hrnsl hbv.1 hbnsl]
    rfl
  · have hd3 : ("https://github.com/" ++ o ++ "/" ++ r ++ "/pull/" ++ ds).data =
        ("https://github.com/" : String).data ++ (o.data ++ '/' ::
          (r.data ++ '/' :: 'p' :: 'u' :: 'l' :: 'l' :: '/' :: ds.data)) := by
      simp [String.data_append, show ("/" : String).data = ['/'] from rfl,
        show ("/pull/" : String).data = ['/', 'p', 'u', 'l', 'l', '/'] from rfl]
    have hsp3 : ∀ c ∈ ("https://github.com/" : String).data ++ (o.data ++ '/' ::
        (r.data ++ '/' :: 'p' :: 'u' :: 'l' :: 'l' :: '/' :: ds.data)),
        isPySpace c = false :=
      nospace_concat _ _ (by decide)
        (nospace_concat _ _ hosp (nospace_cons '/' _ (by decide)
          (nospace_concat _ _ hrsp (nospace_cons '/' _ (by decide)
            (nospace_cons 'p' _ (by decide) (nospace_cons 'u' _ (by decide)
              (nospace_cons 'l' _ (by decide) (nospace_cons 'l' _ (by decide)
                (nospace_cons '/' _ (by decide) hdsp)))))))))
    have hc3 : ("https://github.com/" : String).data ++ (o.data ++ '/' ::
        (r.data ++ '/' :: 'p' :: 'u' :: 'l' :: 'l' :: '/' :: ds.data)) =
        'h' :: 't' :: 't' :: 'p' :: 's' :: ':' :: '/' :: '/' :: 'g' :: 'i' ::
        't' :: 'h' :: 'u' :: 'b' :: '.' :: 'c' :: 'o' :: 'm' :: '/' ::
        (o.data ++ '/' ::
          (r.data ++ '/' :: 'p' :: 'u' :: 'l' :: 'l' :: '/' :: ds.data)) := rfl
    unfold parse
    rw [hd3, pyStrip_eq_self _ hsp3, hc3, httpsMatch_host,
      hostTail_eq o.data _ ho.1 honsl,
      repoTail_pull r.data ds.data hrv.1 hrnsl hdv.1 hdv.2]
    rfl
  · have hd4 : ("github.com/" ++ o ++ "/" ++ r).data =
        ("github.com/" : String).data ++ (o.data ++ '/' :: r.data) := by
      simp [String.data_append, show ("/" : String).data = ['/'] from rfl]
    have hsp4 : ∀ c ∈ ("github.com/" : String).data ++
        (o.data ++ '/' :: r.data), isPySpace c = false :=
      nospace_concat _ _ (by decide)
        (nospace_concat _ _ hosp (nospace_cons '/' _ (by decide) hrsp))
    have hc4 : ("github.com/" : String).data ++ (o.data ++ '/' :: r.data) =
        'g' :: 'i' :: 't' :: 'h' :: 'u' :: 'b' :: '.' :: 'c' :: 'o' :: 'm' ::
        '/' :: (o.data ++ '/' :: r.data) := rfl
    unfold parse
    rw [hd4, pyStrip_eq_self _ hsp4, hc4, httpsMatch_g, bareMatch_host,
      hostTail_eq o.data _ ho.1 honsl, repoTail_plain r.data hrv.1 hrnsl hgit2]
    rfl
  · have hd5 : ("git@github.com:" ++ o ++ "/" ++ r ++ ".git").data =
        ("git@github.com:" : String).data ++ (o.data ++ '/' ::
          (r.data ++ ['.', 'g', 'i', 't'])) := by
      simp [String.data_append, show ("/" : String).data = ['/'] from rfl,
        show (".git" : String).data = ['.', 'g', 'i', 't'] from rfl]
    have hsp5 : ∀ c ∈ ("git@github.com:" : String).data ++ (o.data ++ '/' ::
        (r.data ++ ['.', 'g', 'i', 't'])), isPySpace c = false :=
      nospace_concat _ _ (by decide)
        (nospace_concat _ _ hosp (nospace_cons '/' _ (by decide)
          (nospace_concat _ _ hrsp (by decide))))
    have hc5 : ("git@github.com:" : String).data ++ (o.data ++ '/' ::
        (r.data ++ ['.', 'g', 'i', 't'])) =
        'g' :: 'i' :: 't' :: '@' :: 'g' :: 'i' :: 't' :: 'h' :: 'u' :: 'b' ::
        '.' :: 'c' :: 'o' :: 'm' :: ':' ::
        (o.data ++ '/' :: (r.data ++ ['.', 'g', 'i', 't'])) := rfl
    unfold parse
    rw [hd5, pyStrip_eq_self _ hsp5, hc5, httpsMatch_g, bareMatch_at,
      sshMatch_host, sshTail_git o.data r.data ho.1 honsl hrv.1 hrnsl]
    rfl
  · have hd6 : ("git@github.com:" ++ o ++ "/" ++ r).data =
        ("git@github.com:" : String).data ++ (o.data ++ '/' :: r.data) := by
      simp [String.data_append, show ("/" : String).data = ['/'] from rfl]
    have hsp6 : ∀ c ∈ ("git@github.com:" : String).data ++
        (o.data ++ '/' :: r.data), isPySpace c = false :=
      nospace_concat _ _ (by decide)
        (nospace_concat _ _ hosp (nospace_cons '/' _ (by decide) hrsp))
    have hc6 : ("git@github.com:" : String).data ++ (o.data ++ '/' :: r.data) =
        'g' :: 'i' :: 't' :: '@' :: 'g' :: 'i' :: 't' :: 'h' :: 'u' :: 'b' ::
        '.' :: 'c' :: 'o' :: 'm' :: ':' :: (o.data ++ '/' :: r.data) := rfl
    unfold parse
    rw [hd6, pyStrip_eq_self _ hsp6, hc6, httpsMatch_g, bareMatch_at,
      sshMatch_host, sshTail_nogit o.data r.data ho.1 honsl hrv.1 hrnsl hgit2]
    rfl
  · have hd7 : (o ++ "/" ++ r).data = o.data ++ '/' :: r.data := by
      simp [String.data_append, show ("/" : String).data = ['/'] from rfl]
    have hsp7 : ∀ c ∈ o.data ++ '/' :: r.data, isPySpace c = false :=
      nospace_concat _ _ hosp (nospace_cons '/' _ (by decide) hrsp)
    unfold parse
    rw [hd7, pyStrip_eq_self _ hsp7, httpsMatch_short_none o.data r.data ho.2,
      bareMatch_short_none o.data r.data ho.2,
      sshMatch_short_none o.data r.data ho.2,
      shortMatch_ok o.data r.data ho.1 ho.2 hrv.1 hrv.2.1]
  · rfl
  · rfl
  · rfl


/-- Concrete instantiation of the C9 theorem at owner octo, repo demo,
branch main, PR number 7. -/
theorem parse_accepted_shapes_witness :
    validOwnerL "octo".data ∧ validRepoL "demo".data ∧
    validBranchL "main".data ∧ validDigitsL "7".data ∧
    parse "https://github.com/octo/demo/pull/7" =
      some { owner := "octo", repo := "demo",
             pr_number := some (digitsToNat "7".data), branch := none } :=
  ⟨by unfold validOwnerL; decide, by unfold validRepoL gitList; decide,
    by unfold validBranchL; decide, by unfold validDigitsL; decide,
    (parse_accepted_shapes "octo" "demo" "main" "7"
      (by unfold validOwnerL; decide) (by unfold validRepoL gitList; decide)
      (by unfold validBranchL; decide) (by unfold validDigitsL; decide)).2.2.1⟩

end GitHubURLParser

end Watchflow
